import Mathlib

/-!
# Number-Detection-System: k-nearest-neighbour digit classifier

A shallow embedding of `cy23929.cpp` (IDX loaders, squared-distance evaluator,
neighbour selection, majority vote, classification driver, image renderer)
together with the properties its specification states about it.

Conventions of the embedding

* `uint8_t` is `Byte = Fin 256`; a `std::vector<uint8_t>` is a `List Byte`.
* `int` is a mathematical `Int` guarded by `int32`: an operation whose exact
  result does not fit in 32 bits has undefined behaviour, rendered as `none`.
* `v[i]` on a vector has undefined behaviour when `i` is not below `v.size()`
  (`i` is converted to `size_t`, so a negative `i` is never in range); this is
  rendered as `none` as well.
-/

namespace NumberDetection

/-- An unsigned 8-bit value, the element type of every buffer of the program. -/
abbrev Byte := Fin 256

/-- The value `z` as a 32-bit signed `int`: `none` when it is not representable. -/
def int32 (z : Int) : Option Int :=
  if -2147483648 ≤ z ∧ z ≤ 2147483647 then some z else none

/-- The read `v[idx]` of a `std::vector<uint8_t>` at an `int` subscript. -/
def readAt (v : List Byte) (idx : Int) : Option Byte :=
  if 0 ≤ idx then v.get? idx.toNat else none

/-- The body of the `for (int i = 0; i < imageSize; ++i)` loop of
`pairwise_distance`, run for `remaining` more iterations from counter `i` and
accumulator `total`. -/
def distanceLoop (train_data test_data : List Byte) (train_offset test_offset : Int) :
    Nat → Int → Int → Option Int
  | 0, _, total => some total
  | remaining + 1, i, total =>
    (int32 (train_offset + i)).bind fun ti =>
    (readAt train_data ti).bind fun a =>
    (int32 (test_offset + i)).bind fun qi =>
    (readAt test_data qi).bind fun b =>
    (int32 ((a.val : Int) - (b.val : Int))).bind fun diff =>
    (int32 (diff * diff)).bind fun sq =>
    (int32 (total + sq)).bind fun total' =>
    distanceLoop train_data test_data train_offset test_offset remaining (i + 1) total'

/-- The function `pairwise_distance` of the source: the squared distance of the
28x28 image `train_index` of `train_data` and the image `test_index` of
`test_data`. -/
def pairwise_distance (train_data test_data : List Byte) (train_index test_index : Int) :
    Option Int :=
  let imageSize : Int := 28 * 28
  (int32 (train_index * imageSize)).bind fun train_offset =>
  (int32 (test_index * imageSize)).bind fun test_offset =>
  distanceLoop train_data test_data train_offset test_offset imageSize.toNat 0 0

/-- The pixel `buf[k]` as an integer (0 outside the buffer). -/
def pixel (buf : List Byte) (k : Nat) : Int := ((buf.getD k 0).val : Int)

/-- The sum of squared pixel differences over `n` consecutive positions starting
at `r` in `ref` and at `q` in `query`. -/
def sumSq (ref query : List Byte) (r q n : Nat) : Int :=
  ∑ i in Finset.range n, (pixel ref (r + i) - pixel query (q + i)) ^ 2

/-! ## Neighbour selection and vote (the body of the loop of `main`) -/

/-- The loop `for (train_index = 0; train_index < num_train_images; ++train_index)`
of `main`, run for `remaining` more iterations: each iteration appends
`(distance, train_index)` to `distances`. -/
def distancesLoop (train_data test_data : List Byte) (test_index : Int) :
    Nat → Int → List (Int × Int) → Option (List (Int × Int))
  | 0, _, distances => some distances
  | remaining + 1, train_index, distances =>
    (pairwise_distance train_data test_data train_index test_index).bind fun distance =>
    distancesLoop train_data test_data test_index remaining (train_index + 1)
      (distances ++ [(distance, train_index)])

/-- The comparison `operator<` of `std::pair<int, int>`: lexicographic. -/
def pairLt (x y : Int × Int) : Prop :=
  x.1 < y.1 ∨ (¬ y.1 < x.1 ∧ x.2 < y.2)

instance : DecidableRel pairLt := fun x y => by unfold pairLt; infer_instance

/-- The order `std::sort` establishes between an earlier element `x` and a later
element `y`: `y` is not less than `x`. -/
def pairLe (x y : Int × Int) : Prop := ¬ pairLt y x

instance : DecidableRel pairLe := fun x y => by unfold pairLe; infer_instance

/-- The library call `std::sort(distances.begin(), distances.end())`: it leaves a
permutation of the vector in which no element is less than an earlier one.
`operator<` on pairs is a total order, so that vector is unique; it is computed
here by insertion. -/
def std_sort (distances : List (Int × Int)) : List (Int × Int) :=
  List.insertionSort pairLe distances

/-- The statement `label_counts[label]++` on a `std::unordered_map<uint8_t, int>`,
held as the list of its (key, value) entries: an absent key is inserted with
value 0 and incremented. (A count never exceeds `k = 5`, so no `int` guard.) -/
def increment : List (Byte × Int) → Byte → List (Byte × Int)
  | [], label => [(label, 0 + 1)]
  | (key, count) :: rest, label =>
    if key = label then (key, count + 1) :: rest else (key, count) :: increment rest label

/-- The read `distances[i]` of a `std::vector<std::pair<int, int>>`. -/
def pairAt (distances : List (Int × Int)) (i : Int) : Option (Int × Int) :=
  if 0 ≤ i then distances.get? i.toNat else none

/-- The loop `for (int i = 0; i < k; ++i)` of `main`, run for `remaining` more
iterations: it looks up the label of the `i`-th nearest reference image and
counts it. -/
def tallyLoop (train_labels : List Byte) (distances : List (Int × Int)) :
    Nat → Int → List (Byte × Int) → Option (List (Byte × Int))
  | 0, _, label_counts => some label_counts
  | remaining + 1, i, label_counts =>
    (pairAt distances i).bind fun pair =>
    (readAt train_labels pair.2).bind fun label =>
    tallyLoop train_labels distances remaining (i + 1) (increment label_counts label)

/-- The tally after `label_counts[label]++` was executed for each label of a
sequence, starting from the empty map. -/
def countLabels (labels : List Byte) : List (Byte × Int) :=
  labels.foldl increment []

/-- The loop `for (const auto& pair : label_counts)` of `main` over the entries
in the order the map's iteration yields them. -/
def voteLoop : List (Byte × Int) → Byte → Int → Byte × Int
  | [], predicted_label, max_count => (predicted_label, max_count)
  | pair :: rest, predicted_label, max_count =>
    if pair.2 > max_count then voteLoop rest pair.1 pair.2
    else voteLoop rest predicted_label max_count

/-- The value of `predicted_label` after the vote loop, from
`predicted_label = 0` and `max_count = 0`. The argument is the sequence of
entries as iterated: `std::unordered_map` fixes no iteration order, so any
arrangement of the map's entries can occur. -/
def vote (iterated : List (Byte × Int)) : Byte :=
  (voteLoop iterated 0 0).1

/-- The full ranking the specification describes: every reference index
`0 .. N-1` exactly once, each paired with its distance to the query image,
ascending by distance, equal distances by lowest reference index first. -/
def IsBruteForceRanking (ref query : List Byte) (queryIndex : Int) (N : Nat)
    (ranking : List (Int × Int)) : Prop :=
  (ranking.map Prod.snd).Perm ((List.range N).map Int.ofNat) ∧
  (∀ entry ∈ ranking, pairwise_distance ref query entry.2 queryIndex = some entry.1) ∧
  ranking.Pairwise (fun x y => x.1 < y.1 ∨ (x.1 = y.1 ∧ x.2 < y.2))

instance (ref query : List Byte) (queryIndex : Int) (N : Nat) (ranking : List (Int × Int)) :
    Decidable (IsBruteForceRanking ref query queryIndex N ranking) := by
  unfold IsBruteForceRanking; infer_instance

/-! ## Loaders -/

/-- How a loader call ends when it does not return: the `std::runtime_error` the
source throws, or behaviour the language leaves undefined (a variable used
without having been read, a subscript outside a vector). -/
inductive Fault where
  | runtime_error
  | undefined
  deriving DecidableEq, Repr

/-- A `std::ifstream` opened in binary mode: the bytes not yet extracted and
whether the stream is still good (no failed read so far). -/
structure IfStream where
  rest : List Byte
  good : Bool
  deriving DecidableEq, Repr

/-- The call `file.read(buffer, n)`: on a good stream up to `n` bytes are
extracted and stored at the start of the buffer, and the stream fails when fewer
than `n` were available; on a failed stream nothing is extracted. Returns the
bytes stored. -/
def IfStream.read (file : IfStream) (n : Nat) : List Byte × IfStream :=
  if file.good then
    (file.rest.take n, { rest := file.rest.drop n, good := decide (n ≤ file.rest.length) })
  else ([], file)

/-- The value of a `uint32_t` whose four bytes in memory, lowest address first,
are `bytes` (the host is little-endian, as every Windows target is). -/
def uint32OfMemory (bytes : List Byte) : Nat :=
  match bytes with
  | [b0, b1, b2, b3] => b0.val + 256 * b1.val + 65536 * b2.val + 16777216 * b3.val
  | _ => 0

/-- The call `ntohl(x)` on a little-endian host: the four bytes of `x` reversed. -/
def ntohl (x : Nat) : Nat :=
  (x % 256) * 16777216 + (x / 256 % 256) * 65536 + (x / 65536 % 256) * 256 + x / 16777216 % 256

/-- The conversion of a `uint32_t` to `int` in `dimensions[i] = dim`. -/
def uint32ToInt (x : Nat) : Int :=
  if x < 2147483648 then (x : Int) else (x : Int) - 4294967296

/-- The loop `for (int i = 0; i < numDimensions; ++i)` of `readIDXFile`, run for
`remaining` more iterations; `none` when a dimension word is not fully read, so
that `dim` is used uninitialised. -/
def readDimensions : Nat → IfStream → Option (List Int × IfStream)
  | 0, file => some ([], file)
  | remaining + 1, file =>
    let (bytes, file') := file.read 4
    if bytes.length < 4 then none
    else
      let dim := ntohl (uint32OfMemory bytes)
      (readDimensions remaining file').map fun (dimensions, file'') =>
        (uint32ToInt dim :: dimensions, file'')

/-- The function `readIDXFile` of the source. The argument is the content of the
file of that name, `none` when it cannot be opened; the result is the returned
data buffer together with the `dimensions` output parameter. The local
`dataType = magicNumber[2]` is never used and is left out; `numDimensions` is
`magicNumber[3]`, unset when fewer than 4 bytes could be read. -/
def readIDXFile (content : Option (List Byte)) : Except Fault (List Byte × List Int) :=
  match content with
  | none => .error .runtime_error
  | some bytes =>
    let (magicNumber, file) := (IfStream.mk bytes true).read 4
    match magicNumber.get? 3 with
    | none => .error .undefined
    | some numDimensions =>
      match readDimensions numDimensions.val file with
      | none => .error .undefined
      | some (dimensions, file') => .ok (file'.rest, dimensions)

/-- The function `readLabelFile` of the source. The argument is the content of
the file of that name, `none` when it cannot be opened. The vector `labels` is
created with `numItems` zero bytes and then overwritten from its start with the
bytes the final `read` stores (none at all when `numItems` is 0). -/
def readLabelFile (content : Option (List Byte)) : Except Fault (List Byte) :=
  match content with
  | none => .error .runtime_error
  | some bytes =>
    let (_, file) := (IfStream.mk bytes true).read 4
    let (word, file') := file.read 4
    if word.length < 4 then .error .undefined
    else
      let numItems := ntohl (uint32OfMemory word)
      let labels : List Byte := List.replicate numItems 0
      let (stored, _) := file'.read numItems
      .ok (stored ++ labels.drop stored.length)

/-- The four bytes a big-endian 32-bit word `n` occupies in a file, first byte
first (the encoding the file formats prescribe; used to state properties). -/
def bigEndian32 (n : Nat) : List Byte :=
  [⟨n / 16777216 % 256, Nat.mod_lt _ (by decide)⟩, ⟨n / 65536 % 256, Nat.mod_lt _ (by decide)⟩,
   ⟨n / 256 % 256, Nat.mod_lt _ (by decide)⟩, ⟨n % 256, Nat.mod_lt _ (by decide)⟩]

/-! ## Classification driver (`main`) -/

/-- The prediction for one query image, as the body of the loop of `main`
computes it: scan of the reference images, sort, tally of the labels of
`distances[0 .. k-1]` with `k = 5`, vote. The parameter `order` is the order in
which the `std::unordered_map` yields its entries when iterated. -/
def classify (order : List (Byte × Int) → List (Byte × Int))
    (train_data test_data train_labels : List Byte) (num_train_images test_index : Int) :
    Option Byte :=
  (distancesLoop train_data test_data test_index num_train_images.toNat 0 []).bind
    fun distances =>
  (tallyLoop train_labels (std_sort distances) 5 0 []).bind fun label_counts =>
  some (vote (order label_counts))

/-- What the loop of `main` has produced so far: the lines written to standard
output and the counter `correct_predictions`. -/
structure Progress where
  stdout : List String
  correct_predictions : Int
  deriving DecidableEq, Repr

/-- The line `Test Image Index: <i> classified as: <label>`. -/
def classifiedLine (test_index : Int) (predicted_label : Byte) : String :=
  "Test Image Index: " ++ toString test_index ++ " classified as: " ++
    toString predicted_label.val

/-- One iteration of the loop `for (test_index = 0; test_index < num_test_images;
++test_index)` of `main`: predict, print the line, compare with
`test_labels[test_index]` and count. -/
def classificationStep (order : List (Byte × Int) → List (Byte × Int))
    (train_data test_data train_labels test_labels : List Byte) (num_train_images : Int)
    (test_index : Int) (s : Progress) : Option Progress :=
  (classify order train_data test_data train_labels num_train_images test_index).bind
    fun predicted_label =>
  (readAt test_labels test_index).bind fun truth =>
  some { stdout := s.stdout ++ [classifiedLine test_index predicted_label],
         correct_predictions :=
           if predicted_label = truth then s.correct_predictions + 1
           else s.correct_predictions }

/-- The classification loop of `main`, run for `remaining` more iterations from
`test_index`. -/
def classificationLoop (order : List (Byte × Int) → List (Byte × Int))
    (train_data test_data train_labels test_labels : List Byte) (num_train_images : Int) :
    Nat → Int → Progress → Option Progress
  | 0, _, s => some s
  | remaining + 1, test_index, s =>
    (classificationStep order train_data test_data train_labels test_labels num_train_images
      test_index s).bind fun s' =>
    classificationLoop order train_data test_data train_labels test_labels num_train_images
      remaining (test_index + 1) s'

/-- The value `accuracy * 100` that `main` prints, with `double` arithmetic
idealised by exact rationals: `none` when `num_test_images` is 0 (the quotient
0.0/0 is not a number). Rounding and the sign of a zero are not represented. -/
def accuracyPercent (correct_predictions num_test_images : Int) : Option Rat :=
  if num_test_images = 0 then none
  else some ((correct_predictions : Rat) / (num_test_images : Rat) * 100)

/-- The line `Classification Accuracy: <percentage>%`; `showDouble` is the
library's rendering of a `double` on a stream. -/
def accuracyLine (showDouble : Option Rat → String) (percentage : Option Rat) : String :=
  "Classification Accuracy: " ++ showDouble percentage ++ "%"

/-- How a run of the program ends: the lines on standard output, the lines on the
diagnostic stream, and the exit code. -/
structure Outcome where
  stdout : List String
  stderr : List String
  exit_code : Int
  deriving DecidableEq, Repr

/-- The function `main` of the source. The four arguments are the contents of the
four input files (`none`: the file cannot be opened). A `std::runtime_error`
thrown by a loader is caught: its message goes to the diagnostic stream and the
exit code is 1. The result is `none` when the run has undefined behaviour. -/
def main (order : List (Byte × Int) → List (Byte × Int)) (showDouble : Option Rat → String)
    (train_images test_images train_label_file test_label_file : Option (List Byte)) :
    Option Outcome :=
  match readIDXFile train_images with
  | .error .undefined => none
  | .error .runtime_error => some { stdout := [], stderr := ["Could not open file"], exit_code := 1 }
  | .ok (train_data, train_dimensions) =>
    match readIDXFile test_images with
    | .error .undefined => none
    | .error .runtime_error =>
      some { stdout := [], stderr := ["Could not open file"], exit_code := 1 }
    | .ok (test_data, test_dimensions) =>
      match readLabelFile train_label_file with
      | .error .undefined => none
      | .error .runtime_error =>
        some { stdout := [], stderr := ["Could not open label file"], exit_code := 1 }
      | .ok train_labels =>
        match readLabelFile test_label_file with
        | .error .undefined => none
        | .error .runtime_error =>
          some { stdout := [], stderr := ["Could not open label file"], exit_code := 1 }
        | .ok test_labels =>
          (test_dimensions.get? 0).bind fun num_test_images =>
          (train_dimensions.get? 0).bind fun num_train_images =>
          (classificationLoop order train_data test_data train_labels test_labels
            num_train_images num_test_images.toNat 0
            { stdout := [], correct_predictions := 0 }).bind fun s =>
          some { stdout := s.stdout ++
                   [accuracyLine showDouble
                     (accuracyPercent s.correct_predictions num_test_images)],
                 stderr := [], exit_code := 0 }

/-- Whether the prediction for query image `test_index` is defined and equals
its ground-truth label `test_labels[test_index]`. -/
def isCorrect (order : List (Byte × Int) → List (Byte × Int))
    (train_data test_data train_labels test_labels : List Byte) (num_train_images : Int)
    (test_index : Nat) : Bool :=
  match classify order train_data test_data train_labels num_train_images (test_index : Int),
      readAt test_labels (test_index : Int) with
  | some predicted_label, some truth => decide (predicted_label = truth)
  | _, _ => false

/-- The sequence `labels` holds the labels of the `k = 5` nearest reference
images of query image `test_index`, in order: the scan of the reference images
completes with a vector that, once sorted, is `distances`, and `labels[i]` is
`train_labels[distances[i].second]` for every `i < 5`. -/
def AreNeighbourLabels (train_data test_data train_labels : List Byte)
    (num_train_images test_index : Int) (labels : List Byte) : Prop :=
  ∃ scanned : List (Int × Int),
    distancesLoop train_data test_data test_index num_train_images.toNat 0 [] = some scanned ∧
    labels.length = 5 ∧
    ∀ i : Nat, i < 5 → ∃ pair : Int × Int,
      pairAt (std_sort scanned) (i : Int) = some pair ∧
      readAt train_labels pair.2 = labels.get? i

/-! ## Image renderer (`printImage`) -/

/-- The conversion of an `int` to `size_t` (64 bits) that the comparison
`offset + imageSize > data.size()` applies to its left operand. -/
def sizeT (z : Int) : Nat := (z % 18446744073709551616).toNat

/-- The inner loop `for (int j = 0; j < 28; ++j)` of `printImage`, run for
`remaining` more iterations: the characters of row `i`. -/
def renderRow (data : List Byte) (offset i : Int) : Nat → Int → List Char → Option (List Char)
  | 0, _, row => some row
  | remaining + 1, j, row =>
    (int32 (i * 28)).bind fun a =>
    (int32 (offset + a)).bind fun b =>
    (int32 (b + j)).bind fun idx =>
    (readAt data idx).bind fun px =>
    renderRow data offset i remaining (j + 1) (row ++ [if px.val > 128 then '#' else '.'])

/-- The outer loop `for (int i = 0; i < 28; ++i)` of `printImage`, run for
`remaining` more iterations: each iteration prints one row and ends the line. -/
def renderRows (data : List Byte) (offset : Int) : Nat → Int → List String → Option (List String)
  | 0, _, rows => some rows
  | remaining + 1, i, rows =>
    (renderRow data offset i 28 0 []).bind fun row =>
    renderRows data offset remaining (i + 1) (rows ++ [String.mk row])

/-- What a call of `printImage` writes: lines on standard output and lines on the
diagnostic stream. -/
structure Rendering where
  stdout : List String
  stderr : List String
  deriving DecidableEq, Repr

/-- The function `printImage` of the source; `none` when the call has undefined
behaviour. -/
def printImage (data : List Byte) (dimensions : List Int) (index : Int) : Option Rendering :=
  if dimensions.length = 3 ∧ dimensions.get? 1 = some 28 ∧ dimensions.get? 2 = some 28 then
    let imageSize : Int := 28 * 28
    (int32 (index * imageSize)).bind fun offset =>
    (int32 (offset + imageSize)).bind fun stop =>
    if sizeT stop > data.length then
      some { stdout := [], stderr := ["Index out of bounds"] }
    else
      (renderRows data offset 28 0 []).map fun rows => { stdout := rows, stderr := [] }
  else
    some { stdout := [],
           stderr := ["Unexpected dimensions: " ++
             String.join (dimensions.map fun dim => toString dim ++ " ")] }

/-! ## Example inputs -/

/-- An example image: 784 pixels of one value. -/
def constantImage (v : Byte) : List Byte := List.replicate 784 v

/-- An example buffer: one constant image for each value of `values`. -/
def constantImages : List Byte → List Byte
  | [] => []
  | v :: values => constantImage v ++ constantImages values

/-- An example buffer: `n` all-zero 28x28 images. -/
def zeroImages (n : Nat) : List Byte := List.replicate (n * 784) 0

/-- An example image file: the header of a 3-dimensional tensor, the dimensions
`[n, 28, 28]` and `n` all-zero images. -/
def zeroImageFile (n : Nat) : List Byte :=
  [0, 0, 8, 3] ++ bigEndian32 n ++ bigEndian32 28 ++ bigEndian32 28 ++ zeroImages n

/-- An example image file: the header of a 3-dimensional tensor, the dimensions
`[n, 28, 28]` and one constant image for each of the `n` values. -/
def imageFile (values : List Byte) : List Byte :=
  [0, 0, 8, 3] ++ bigEndian32 values.length ++ bigEndian32 28 ++ bigEndian32 28 ++
    constantImages values

/-- An example label file: header, count and the labels. -/
def labelFile (labels : List Byte) : List Byte :=
  [0, 0, 8, 1] ++ bigEndian32 labels.length ++ labels

/-- An example rendering of a `double` on a stream: the exact value, `nan` when
there is none. -/
def showExact : Option Rat → String
  | none => "nan"
  | some q => toString q

/-! ## Auxiliary definitions used in the proofs -/

/-- What the scan over the reference images appends: the pair of distance and
index of each image, in index order. -/
def distancePairs (train_data test_data : List Byte) (q : Nat) (t n : Nat) : List (Int × Int) :=
  (List.range' t n).map fun i => (sumSq train_data test_data (i * 784) (q * 784) 784, (i : Int))

/-- The map `m` is the tally of the label sequence `L`: its keys are distinct,
they are the labels occurring in `L`, and each value is the number of
occurrences of its key. -/
def IsTallyOf (m : List (Byte × Int)) (L : List Byte) : Prop :=
  (m.map Prod.fst).Nodup ∧ (∀ x, x ∈ m.map Prod.fst ↔ x ∈ L) ∧
    ∀ e ∈ m, e.2 = (L.count e.1 : Int)

/-! ## Distance evaluator: auxiliary lemmas -/

theorem int32_eq_some {z : Int} (h₁ : -2147483648 ≤ z) (h₂ : z ≤ 2147483647) :
    int32 z = some z := by
  simp [int32, h₁, h₂]

theorem int32_eq_none {z : Int} (h : 2147483647 < z) : int32 z = none := by
  have : ¬ z ≤ 2147483647 := by omega
  simp [int32, this]

theorem readAt_natCast {v : List Byte} {k : Nat} (h : k < v.length) :
    readAt v (k : Int) = some (v.getD k 0) := by
  simp [readAt, List.getD, List.getElem?_eq_getElem h]

theorem pixel_nonneg (buf : List Byte) (k : Nat) : 0 ≤ pixel buf k := by
  simp [pixel]

theorem pixel_le (buf : List Byte) (k : Nat) : pixel buf k ≤ 255 := by
  have := (buf.getD k 0).isLt
  simp only [pixel]
  omega

/-- One squared pixel difference lies between 0 and 255² = 65025. -/
theorem sqDiff_bounds (ref query : List Byte) (a b : Nat) :
    0 ≤ (pixel ref a - pixel query b) ^ 2 ∧ (pixel ref a - pixel query b) ^ 2 ≤ 65025 := by
  have h₁ := pixel_nonneg ref a
  have h₂ := pixel_le ref a
  have h₃ := pixel_nonneg query b
  have h₄ := pixel_le query b
  constructor
  · positivity
  · nlinarith

theorem sumSq_succ (ref query : List Byte) (r q n : Nat) :
    sumSq ref query r q (n + 1) =
      (pixel ref r - pixel query q) ^ 2 + sumSq ref query (r + 1) (q + 1) n := by
  unfold sumSq
  rw [Finset.sum_range_succ']
  simp only [Nat.add_zero]
  rw [add_comm]
  congr 1
  apply Finset.sum_congr rfl
  intro i _
  have e₁ : r + (i + 1) = r + 1 + i := by omega
  have e₂ : q + (i + 1) = q + 1 + i := by omega
  rw [e₁, e₂]

theorem sumSq_bounds (ref query : List Byte) (r q n : Nat) :
    0 ≤ sumSq ref query r q n ∧ sumSq ref query r q n ≤ (n : Int) * 65025 := by
  induction n generalizing r q with
  | zero => simp [sumSq]
  | succ n ih =>
    rw [sumSq_succ]
    have h := sqDiff_bounds ref query r q
    have h' := ih (r + 1) (q + 1)
    push_cast
    constructor <;> nlinarith [h.1, h.2, h'.1, h'.2]

/-- The loop of `pairwise_distance` on in-range, representable offsets: it
terminates with the accumulator increased by the sum of squared differences. -/
theorem distanceLoop_eq (A B : List Byte) (r q : Nat) :
    ∀ (n k : Nat) (total : Int),
      r + k + n ≤ A.length → r + k + n ≤ 2147483648 →
      q + k + n ≤ B.length → q + k + n ≤ 2147483648 →
      0 ≤ total → total + (n : Int) * 65025 ≤ 2147483647 →
      distanceLoop A B (r : Int) (q : Int) n (k : Int) total =
        some (total + sumSq A B (r + k) (q + k) n) := by
  intro n
  induction n with
  | zero => intro k total _ _ _ _ _ _; simp [distanceLoop, sumSq]
  | succ n ih =>
    intro k total hA hA' hB hB' ht ht'
    have hs := sqDiff_bounds A B (r + k) (q + k)
    have hrest := sumSq_bounds A B (r + k + 1) (q + k + 1) n
    have hpa₀ := pixel_nonneg A (r + k)
    have hpa₁ := pixel_le A (r + k)
    have hpb₀ := pixel_nonneg B (q + k)
    have hpb₁ := pixel_le B (q + k)
    push_cast at ht'
    have e₁ : int32 ((r : Int) + (k : Int)) = some (((r + k : Nat)) : Int) := by
      rw [int32_eq_some (by omega) (by omega)]; push_cast; rfl
    have e₂ : int32 ((q : Int) + (k : Int)) = some (((q + k : Nat)) : Int) := by
      rw [int32_eq_some (by omega) (by omega)]; push_cast; rfl
    have e₃ : int32 (pixel A (r + k) - pixel B (q + k)) =
        some (pixel A (r + k) - pixel B (q + k)) := int32_eq_some (by omega) (by omega)
    have e₄ : int32 ((pixel A (r + k) - pixel B (q + k)) * (pixel A (r + k) - pixel B (q + k)))
        = some ((pixel A (r + k) - pixel B (q + k)) ^ 2) := by
      rw [int32_eq_some (by nlinarith [hs.1]) (by nlinarith [hs.2])]; congr 1; ring
    have e₅ : int32 (total + (pixel A (r + k) - pixel B (q + k)) ^ 2) =
        some (total + (pixel A (r + k) - pixel B (q + k)) ^ 2) :=
      int32_eq_some (by linarith [hs.1]) (by linarith [hs.2])
    have ih' := ih (k + 1) (total + (pixel A (r + k) - pixel B (q + k)) ^ 2)
      (by omega) (by omega) (by omega) (by omega) (by linarith [hs.1]) (by linarith [hs.2])
    rw [distanceLoop, e₁, Option.some_bind, readAt_natCast (by omega), Option.some_bind, e₂,
      Option.some_bind, readAt_natCast (by omega), Option.some_bind]
    change (int32 (pixel A (r + k) - pixel B (q + k))).bind _ = _
    rw [e₃, Option.some_bind, e₄, Option.some_bind, e₅, Option.some_bind]
    have ek : ((k : Int) + 1) = ((k + 1 : Nat) : Int) := by push_cast; rfl
    rw [ek, ih', sumSq_succ]
    congr 1
    have a₁ : r + (k + 1) = r + k + 1 := by omega
    have a₂ : q + (k + 1) = q + k + 1 := by omega
    rw [a₁, a₂]
    ring

/-- The value of `pairwise_distance` on two in-range images whose offsets are
representable as `int`. -/
theorem pairwise_distance_eq (A B : List Byte) (i j : Nat)
    (hA : i * 784 + 784 ≤ A.length) (hA' : i * 784 + 784 ≤ 2147483648)
    (hB : j * 784 + 784 ≤ B.length) (hB' : j * 784 + 784 ≤ 2147483648) :
    pairwise_distance A B (i : Int) (j : Int) = some (sumSq A B (i * 784) (j * 784) 784) := by
  have e₁ : int32 ((i : Int) * (28 * 28)) = some (((i * 784 : Nat)) : Int) := by
    rw [int32_eq_some (by omega) (by omega)]; push_cast; rfl
  have e₂ : int32 ((j : Int) * (28 * 28)) = some (((j * 784 : Nat)) : Int) := by
    rw [int32_eq_some (by omega) (by omega)]; push_cast; rfl
  have hn : ((28 : Int) * 28).toNat = 784 := by decide
  have h := distanceLoop_eq A B (i * 784) (j * 784) 784 0 0 (by omega) (by omega) (by omega)
    (by omega) (le_refl _) (by norm_num)
  simp only [pairwise_distance]
  rw [e₁, Option.some_bind, e₂, Option.some_bind, hn]
  simpa using h

theorem int32_some_iff {z y : Int} :
    int32 z = some y ↔ y = z ∧ -2147483648 ≤ z ∧ z ≤ 2147483647 := by
  unfold int32
  split <;> rename_i h
  · simp only [Option.some.injEq]
    constructor
    · intro e; exact ⟨e.symm, h⟩
    · intro e; exact e.1.symm
  · constructor
    · intro e; cases e
    · intro e; exact absurd e.2 h

/-- Exchanging the two buffers (with their offsets) does not change what the
loop of `pairwise_distance` computes. -/
theorem distanceLoop_symm (A B : List Byte) (ro qo : Int) :
    ∀ (n : Nat) (i total : Int),
      distanceLoop A B ro qo n i total = distanceLoop B A qo ro n i total := by
  intro n
  induction n with
  | zero => intro i total; simp [distanceLoop]
  | succ n ih =>
    intro i total
    simp only [distanceLoop]
    rcases h₁ : int32 (ro + i) with _ | ti <;> rcases h₂ : int32 (qo + i) with _ | qi <;>
      simp only [Option.none_bind, Option.some_bind]
    · rcases readAt B qi with _ | b <;> simp only [Option.none_bind, Option.some_bind]
    · rcases readAt A ti with _ | a <;> simp only [Option.none_bind, Option.some_bind]
    · rcases h₃ : readAt A ti with _ | a <;> rcases h₄ : readAt B qi with _ | b <;>
        simp only [Option.none_bind, Option.some_bind]
      have ha := a.isLt
      have hb := b.isLt
      rw [int32_eq_some (z := (a.val : Int) - (b.val : Int)) (by omega) (by omega),
        int32_eq_some (z := (b.val : Int) - (a.val : Int)) (by omega) (by omega)]
      simp only [Option.some_bind]
      have e : ((a.val : Int) - (b.val : Int)) * ((a.val : Int) - (b.val : Int)) =
          ((b.val : Int) - (a.val : Int)) * ((b.val : Int) - (a.val : Int)) := by ring
      rw [e]
      rcases int32 (((b.val : Int) - (a.val : Int)) * ((b.val : Int) - (a.val : Int)))
        with _ | sq <;> simp only [Option.none_bind, Option.some_bind]
      rcases int32 (total + sq) with _ | t <;> simp only [Option.none_bind, Option.some_bind]
      exact ih _ _

theorem pairwise_distance_symm (A B : List Byte) (i j : Int) :
    pairwise_distance A B i j = pairwise_distance B A j i := by
  simp only [pairwise_distance]
  rcases int32 (i * (28 * 28)) with _ | ro <;> rcases int32 (j * (28 * 28)) with _ | qo <;>
    simp only [Option.none_bind, Option.some_bind]
  exact distanceLoop_symm A B ro qo _ _ _

/-- Whatever the buffers and offsets, a value returned by the loop of
`pairwise_distance` exceeds the initial accumulator by at most 65025 per
iteration, and never falls below it. -/
theorem distanceLoop_bounds (A B : List Byte) (ro qo : Int) :
    ∀ (n : Nat) (i total v : Int), distanceLoop A B ro qo n i total = some v →
      total ≤ v ∧ v ≤ total + (n : Int) * 65025 := by
  intro n
  induction n with
  | zero =>
    intro i total v h
    simp only [distanceLoop, Option.some.injEq] at h
    subst h
    simp
  | succ n ih =>
    intro i total v h
    simp only [distanceLoop, Option.bind_eq_some] at h
    obtain ⟨ti, _, a, _, qi, _, b, _, diff, h₅, sq, h₆, t, h₇, h₈⟩ := h
    have ha := a.isLt
    have hb := b.isLt
    obtain ⟨rfl, _, _⟩ := int32_some_iff.mp h₅
    obtain ⟨rfl, _, _⟩ := int32_some_iff.mp h₆
    obtain ⟨rfl, _, _⟩ := int32_some_iff.mp h₇
    have hr := ih _ _ _ h₈
    have h₁ : (0 : Int) ≤ ((a.val : Int) - (b.val : Int)) * ((a.val : Int) - (b.val : Int)) :=
      mul_self_nonneg _
    have h₂ : ((a.val : Int) - (b.val : Int)) * ((a.val : Int) - (b.val : Int)) ≤ 65025 := by
      nlinarith
    push_cast
    constructor <;> linarith [hr.1, hr.2]

theorem pairwise_distance_bounds (A B : List Byte) (i j v : Int)
    (h : pairwise_distance A B i j = some v) : 0 ≤ v ∧ v ≤ 50979600 := by
  simp only [pairwise_distance, Option.bind_eq_some] at h
  obtain ⟨ro, _, qo, _, h⟩ := h
  have := distanceLoop_bounds A B ro qo _ _ _ _ h
  have hn : ((28 : Int) * 28).toNat = 784 := by decide
  rw [hn] at this
  norm_num at this
  exact this

theorem sumSq_self (A : List Byte) (r n : Nat) : sumSq A A r r n = 0 := by
  simp [sumSq]

theorem le_length_replicate {α : Type} {n m : Nat} (a : α) (h : n ≤ m) :
    n ≤ (List.replicate m a).length := by
  rw [List.length_replicate]; exact h

/-- An image whose offset exceeds the largest `int` has no defined distance. -/
theorem pairwise_distance_overflow (A B : List Byte) (i : Nat) (j : Int)
    (h : 2147483647 < i * 784) : pairwise_distance A B (i : Int) j = none := by
  simp only [pairwise_distance]
  rw [int32_eq_none (by omega)]
  exact Option.none_bind _

/-! ## Distance evaluator: the specification's properties -/

/-- C1 (as amended): for buffers `ref`, `query` and indices with
`refIndex*784+784 ≤ length ref`, `queryIndex*784+784 ≤ length query`, and both
of these ends at most `2^31` (so that every `int` offset is representable),
`pairwise_distance` returns the sum over `i < 784` of
`(ref[refIndex*784+i] - query[queryIndex*784+i])^2`, pixels read as unsigned
8-bit values. -/
theorem C1_pairwise_distance_is_sum_of_squares (ref query : List Byte)
    (refIndex queryIndex : Nat)
    (hr : refIndex * 784 + 784 ≤ ref.length) (hr' : refIndex * 784 + 784 ≤ 2147483648)
    (hq : queryIndex * 784 + 784 ≤ query.length) (hq' : queryIndex * 784 + 784 ≤ 2147483648) :
    pairwise_distance ref query (refIndex : Int) (queryIndex : Int) =
      some (∑ i in Finset.range 784,
        (pixel ref (refIndex * 784 + i) - pixel query (queryIndex * 784 + i)) ^ 2) :=
  pairwise_distance_eq ref query refIndex queryIndex hr hr' hq hq'

/-- C1, witness: image 1 of a two-image reference buffer against image 0 of a
one-image query buffer. -/
theorem C1_witness :
    1 * 784 + 784 ≤ (List.replicate 1568 (3 : Byte)).length ∧
    0 * 784 + 784 ≤ (List.replicate 784 (5 : Byte)).length ∧
    pairwise_distance (List.replicate 1568 3) (List.replicate 784 5) ((1 : Nat) : Int)
        ((0 : Nat) : Int) =
      some (∑ i in Finset.range 784,
        (pixel (List.replicate 1568 3) (1 * 784 + i) -
          pixel (List.replicate 784 5) (0 * 784 + i)) ^ 2) :=
  ⟨le_length_replicate _ (by norm_num), le_length_replicate _ (by norm_num),
    C1_pairwise_distance_is_sum_of_squares _ _ 1 0 (le_length_replicate _ (by norm_num)) (by norm_num) (le_length_replicate _ (by norm_num))
      (by norm_num)⟩

/-- C1, counterexample to the claim as stated: index 2739138 is in range of a
reference buffer of 2147484976 bytes, yet its offset 2739138*784 = 2147484192
exceeds the largest `int`, so the function does not return the sum. -/
theorem C1_counterexample :
    2739138 * 784 + 784 ≤ (List.replicate 2147484976 (0 : Byte)).length ∧
    0 * 784 + 784 ≤ (List.replicate 784 (0 : Byte)).length ∧
    pairwise_distance (List.replicate 2147484976 0) (List.replicate 784 0)
      ((2739138 : Nat) : Int) ((0 : Nat) : Int) = none := by
  refine ⟨le_length_replicate _ (by norm_num), le_length_replicate _ (by norm_num), ?_⟩
  simp only [pairwise_distance]
  rw [int32_eq_none (by norm_num)]
  exact Option.none_bind _

/-- C2: distance symmetry. For buffers `A`, `B` and valid indices `i`, `j`
(`i*784+784 ≤ length A`, `j*784+784 ≤ length B`),
`pairwise_distance A B i j = pairwise_distance B A j i`; and whenever the two
offsets are representable as `int` both sides are an actual value. -/
theorem C2_distance_symmetry (A B : List Byte) (i j : Nat)
    (hA : i * 784 + 784 ≤ A.length) (hB : j * 784 + 784 ≤ B.length) :
    pairwise_distance A B (i : Int) (j : Int) = pairwise_distance B A (j : Int) (i : Int) ∧
    (i * 784 + 784 ≤ 2147483648 → j * 784 + 784 ≤ 2147483648 →
      ∃ d : Int, pairwise_distance A B (i : Int) (j : Int) = some d ∧
        pairwise_distance B A (j : Int) (i : Int) = some d) := by
  refine ⟨pairwise_distance_symm A B i j, fun hA' hB' => ?_⟩
  refine ⟨_, pairwise_distance_eq A B i j hA hA' hB hB', ?_⟩
  rw [← pairwise_distance_symm A B i j]
  exact pairwise_distance_eq A B i j hA hA' hB hB'

/-- C2, witness: two one-image buffers. -/
theorem C2_witness :
    0 * 784 + 784 ≤ (List.replicate 784 (3 : Byte)).length ∧
    0 * 784 + 784 ≤ (List.replicate 784 (5 : Byte)).length ∧
    pairwise_distance (List.replicate 784 3) (List.replicate 784 5) ((0 : Nat) : Int)
        ((0 : Nat) : Int) =
      pairwise_distance (List.replicate 784 5) (List.replicate 784 3) ((0 : Nat) : Int)
        ((0 : Nat) : Int) :=
  ⟨le_length_replicate _ (by norm_num), le_length_replicate _ (by norm_num), (C2_distance_symmetry _ _ 0 0 (le_length_replicate _ (by norm_num)) (le_length_replicate _ (by norm_num))).1⟩

/-- C3 (as amended): zero-identity on valid indices. For every buffer `A` and
every index `i` with `i*784+784 ≤ length A` and `i*784+784 ≤ 2^31`,
`pairwise_distance A A i i` is 0. -/
theorem C3_distance_zero_identity (A : List Byte) (i : Nat)
    (hA : i * 784 + 784 ≤ A.length) (hA' : i * 784 + 784 ≤ 2147483648) :
    pairwise_distance A A (i : Int) (i : Int) = some 0 := by
  rw [pairwise_distance_eq A A i i hA hA' hA hA', sumSq_self]

/-- C3, witness: the second image of a two-image buffer. -/
theorem C3_witness :
    1 * 784 + 784 ≤ (List.replicate 1568 (7 : Byte)).length ∧
    pairwise_distance (List.replicate 1568 7) (List.replicate 1568 7) ((1 : Nat) : Int)
      ((1 : Nat) : Int) = some 0 :=
  ⟨le_length_replicate _ (by norm_num), C3_distance_zero_identity _ 1 (le_length_replicate _ (by norm_num)) (by norm_num)⟩

/-- C3, counterexample to the claim as stated ("every index"): on the empty
buffer index 0 reads outside the buffer, and on a buffer of 2147484976 bytes the
in-range index 2739138 has an offset that is not an `int`; in both cases the
function has no value, in particular not the value 0. -/
theorem C3_counterexample :
    pairwise_distance ([] : List Byte) [] 0 0 = none ∧
    2739138 * 784 + 784 ≤ (List.replicate 2147484976 (0 : Byte)).length ∧
    pairwise_distance (List.replicate 2147484976 0) (List.replicate 2147484976 0)
      ((2739138 : Nat) : Int) ((2739138 : Nat) : Int) = none := by
  refine ⟨by decide, le_length_replicate _ (by norm_num), ?_⟩
  simp only [pairwise_distance]
  rw [int32_eq_none (by norm_num)]
  exact Option.none_bind _

/-- C4: distance bounds. For in-range images of 8-bit pixels every single-pixel
squared difference lies in [0, 65025]; every value `pairwise_distance` returns
lies in [0, 784*65025] = [0, 50979600]; and when the offsets are representable
the function does return: no step of the 32-bit accumulation overflows (an
overflowing step would make the embedding return `none`). -/
theorem C4_distance_bounds (A B : List Byte) (i j : Nat)
    (hA : i * 784 + 784 ≤ A.length) (hB : j * 784 + 784 ≤ B.length) :
    (∀ p, p < 784 →
      0 ≤ (pixel A (i * 784 + p) - pixel B (j * 784 + p)) ^ 2 ∧
      (pixel A (i * 784 + p) - pixel B (j * 784 + p)) ^ 2 ≤ 65025) ∧
    (∀ v : Int, pairwise_distance A B (i : Int) (j : Int) = some v →
      0 ≤ v ∧ v ≤ 784 * 65025 ∧ v ≤ 50979600 ∧ v ≤ 2147483647) ∧
    (i * 784 + 784 ≤ 2147483648 → j * 784 + 784 ≤ 2147483648 →
      ∃ v : Int, pairwise_distance A B (i : Int) (j : Int) = some v) := by
  refine ⟨fun p _ => sqDiff_bounds A B _ _, fun v hv => ?_, fun hA' hB' => ?_⟩
  · have h := pairwise_distance_bounds A B _ _ v hv
    refine ⟨h.1, ?_, h.2, ?_⟩ <;> linarith [h.2]
  · exact ⟨_, pairwise_distance_eq A B i j hA hA' hB hB'⟩

/-- C4, witness: two one-image buffers. -/
theorem C4_witness :
    0 * 784 + 784 ≤ (List.replicate 784 (0 : Byte)).length ∧
    0 * 784 + 784 ≤ (List.replicate 784 (255 : Byte)).length ∧
    ∃ v : Int, pairwise_distance (List.replicate 784 0) (List.replicate 784 255)
      ((0 : Nat) : Int) ((0 : Nat) : Int) = some v ∧ 0 ≤ v ∧ v ≤ 50979600 := by
  have h := C4_distance_bounds (List.replicate 784 0) (List.replicate 784 255) 0 0
    (le_length_replicate _ (by norm_num)) (le_length_replicate _ (by norm_num))
  obtain ⟨v, hv⟩ := h.2.2 (by norm_num) (by norm_num)
  exact ⟨le_length_replicate _ (by norm_num), le_length_replicate _ (by norm_num), v, hv, (h.2.1 v hv).1, (h.2.1 v hv).2.2.1⟩

/-! ## Neighbour selection -/

theorem pairLe_iff (x y : Int × Int) :
    pairLe x y ↔ x.1 < y.1 ∨ (x.1 = y.1 ∧ x.2 ≤ y.2) := by
  obtain ⟨a, b⟩ := x
  obtain ⟨c, d⟩ := y
  simp only [pairLe, pairLt]
  omega

instance pairLe_isTotal : IsTotal (Int × Int) pairLe :=
  ⟨fun x y => by rw [pairLe_iff, pairLe_iff]; omega⟩

instance pairLe_isTrans : IsTrans (Int × Int) pairLe :=
  ⟨fun x y z h₁ h₂ => by rw [pairLe_iff] at *; omega⟩

instance pairLe_isAntisymm : IsAntisymm (Int × Int) pairLe :=
  ⟨fun x y h₁ h₂ => by
    rw [pairLe_iff] at h₁ h₂
    apply Prod.ext <;> omega⟩

theorem distancesLoop_eq (train_data test_data : List Byte) (q : Nat)
    (hq : q * 784 + 784 ≤ test_data.length) (hq' : q * 784 + 784 ≤ 2147483648) :
    ∀ (n t : Nat) (acc : List (Int × Int)),
      (t + n) * 784 ≤ train_data.length → (t + n) * 784 ≤ 2147483648 →
      distancesLoop train_data test_data (q : Int) n (t : Int) acc =
        some (acc ++ distancePairs train_data test_data q t n) := by
  intro n
  induction n with
  | zero => intro t acc _ _; simp [distancesLoop, distancePairs]
  | succ n ih =>
    intro t acc h h'
    have e := pairwise_distance_eq train_data test_data t q (by omega) (by omega) hq hq'
    have et : ((t : Int) + 1) = ((t + 1 : Nat) : Int) := by push_cast; rfl
    rw [distancesLoop, e, Option.some_bind, et, ih (t + 1) _ (by omega) (by omega)]
    simp [distancePairs, List.range'_succ]

theorem mem_distancePairs {train_data test_data : List Byte} {q t n : Nat} {x : Int × Int}
    (h : x ∈ distancePairs train_data test_data q t n) :
    ∃ i : Nat, t ≤ i ∧ i < t + n ∧ x.2 = (i : Int) ∧
      x.1 = sumSq train_data test_data (i * 784) (q * 784) 784 := by
  simp only [distancePairs, List.mem_map, List.mem_range'_1] at h
  obtain ⟨i, ⟨h₁, h₂⟩, rfl⟩ := h
  exact ⟨i, h₁, h₂, by dsimp only, by dsimp only⟩

/-- A brute-force ranking is a permutation of the scanned pairs. -/
theorem IsBruteForceRanking.perm {train_data test_data : List Byte} {q N : Nat}
    {ranking : List (Int × Int)}
    (hN : N * 784 ≤ train_data.length) (hN' : N * 784 ≤ 2147483648)
    (hq : q * 784 + 784 ≤ test_data.length) (hq' : q * 784 + 784 ≤ 2147483648)
    (h : IsBruteForceRanking train_data test_data (q : Int) N ranking) :
    ranking.Perm (distancePairs train_data test_data q 0 N) := by
  obtain ⟨hperm, hdist, _⟩ := h
  let f : Int → Int × Int :=
    fun z => (sumSq train_data test_data (z.toNat * 784) (q * 784) 784, z)
  have e₁ : ranking = (ranking.map Prod.snd).map f := by
    rw [List.map_map]
    conv_lhs => rw [← List.map_id ranking]
    apply List.map_congr_left
    intro x hx
    have hmem : x.2 ∈ (List.range N).map Int.ofNat :=
      hperm.subset (List.mem_map_of_mem _ hx)
    simp only [List.mem_map, List.mem_range] at hmem
    obtain ⟨i, hi, hix⟩ := hmem
    have hd := hdist x hx
    rw [← hix] at hd
    have e := pairwise_distance_eq train_data test_data i q
      (by nlinarith) (by nlinarith) hq hq'
    have : Int.ofNat i = (i : Int) := rfl
    rw [this, e] at hd
    simp only [Option.some.injEq] at hd
    apply Prod.ext
    · simp only [id, Function.comp, f, ← hix, this, Int.toNat_ofNat]; exact hd.symm
    · simp [f]
  have e₂ : distancePairs train_data test_data q 0 N = ((List.range N).map Int.ofNat).map f := by
    simp only [distancePairs, List.map_map, List.range_eq_range']
    apply List.map_congr_left
    intro i _
    simp [f]
  rw [e₁, e₂]
  exact hperm.map f

theorem pairwise_strict_imp_pairLe {l : List (Int × Int)}
    (h : l.Pairwise (fun x y => x.1 < y.1 ∨ (x.1 = y.1 ∧ x.2 < y.2))) :
    l.Sorted pairLe := by
  apply List.Pairwise.imp _ h
  intro x y hxy
  rw [pairLe_iff]
  omega

/-- The sorted scan is itself a brute-force ranking. -/
theorem std_sort_isBruteForceRanking (train_data test_data : List Byte) (q N : Nat)
    (hN : N * 784 ≤ train_data.length) (hN' : N * 784 ≤ 2147483648)
    (hq : q * 784 + 784 ≤ test_data.length) (hq' : q * 784 + 784 ≤ 2147483648) :
    IsBruteForceRanking train_data test_data (q : Int) N
      (std_sort (distancePairs train_data test_data q 0 N)) := by
  have hperm : (std_sort (distancePairs train_data test_data q 0 N)).Perm
      (distancePairs train_data test_data q 0 N) := List.perm_insertionSort _ _
  have hsnd : (distancePairs train_data test_data q 0 N).map Prod.snd =
      (List.range N).map Int.ofNat := by
    simp only [distancePairs, List.map_map, List.range_eq_range']
    apply List.map_congr_left
    intro i _
    rfl
  have hnodup : ((std_sort (distancePairs train_data test_data q 0 N)).map Prod.snd).Nodup := by
    rw [(hperm.map Prod.snd).nodup_iff, hsnd]
    exact (List.nodup_range N).map (fun a b h => by simpa using h)
  refine ⟨?_, ?_, ?_⟩
  · rw [← hsnd]; exact hperm.map _
  · intro x hx
    obtain ⟨i, _, hi, h₂, h₁⟩ := mem_distancePairs (hperm.subset hx)
    rw [h₂, h₁]
    exact pairwise_distance_eq train_data test_data i q (by nlinarith) (by nlinarith) hq hq'
  · have hsorted : (std_sort (distancePairs train_data test_data q 0 N)).Sorted pairLe :=
      List.sorted_insertionSort _ _
    have hpw := List.Pairwise.and hsorted (List.pairwise_map.mp hnodup)
    apply List.Pairwise.imp _ hpw
    intro x y ⟨hle, hne⟩
    rw [pairLe_iff] at hle
    omega

/-- Every brute-force ranking is the sorted scan: the ranking is unique. -/
theorem std_sort_eq_ranking (train_data test_data : List Byte) (N q : Nat)
    (hN : N * 784 ≤ train_data.length) (hN' : N * 784 ≤ 2147483648)
    (hq : q * 784 + 784 ≤ test_data.length) (hq' : q * 784 + 784 ≤ 2147483648)
    (ranking : List (Int × Int))
    (hr : IsBruteForceRanking train_data test_data (q : Int) N ranking) :
    std_sort (distancePairs train_data test_data q 0 N) = ranking ∧ ranking.length = N := by
  have hperm : (std_sort (distancePairs train_data test_data q 0 N)).Perm ranking :=
    (List.perm_insertionSort _ _).trans (hr.perm hN hN' hq hq').symm
  have heq : std_sort (distancePairs train_data test_data q 0 N) = ranking :=
    List.eq_of_perm_of_sorted hperm (List.sorted_insertionSort _ _)
      (pairwise_strict_imp_pairLe hr.2.2)
  have hlen : ranking.length = N := by
    have := (hr.perm hN hN' hq hq').length_eq
    simpa [distancePairs] using this
  exact ⟨heq, hlen⟩

/-! ## Vote -/

theorem mem_keys_increment (m : List (Byte × Int)) (l x : Byte) :
    x ∈ (increment m l).map Prod.fst ↔ x ∈ m.map Prod.fst ∨ x = l := by
  induction m with
  | nil => simp [increment]
  | cons e rest ih =>
    obtain ⟨key, count⟩ := e
    by_cases hk : key = l
    · subst hk
      simp only [increment, if_true, List.map_cons, List.mem_cons]
      tauto
    · simp only [increment, hk, if_false, List.map_cons, List.mem_cons, ih]
      tauto

theorem nodup_keys_increment (m : List (Byte × Int)) (l : Byte)
    (h : (m.map Prod.fst).Nodup) : ((increment m l).map Prod.fst).Nodup := by
  induction m with
  | nil => simp [increment]
  | cons e rest ih =>
    obtain ⟨key, count⟩ := e
    simp only [List.map_cons, List.nodup_cons] at h
    by_cases hk : key = l
    · subst hk
      simp only [increment, if_true, List.map_cons, List.nodup_cons]
      exact h
    · simp only [increment, hk, if_false, List.map_cons, List.nodup_cons]
      refine ⟨?_, ih h.2⟩
      rw [mem_keys_increment]
      rintro (h' | h')
      · exact h.1 h'
      · exact hk h'

/-- Where an entry of the incremented map comes from. -/
theorem mem_increment (m : List (Byte × Int)) (l : Byte) (h : (m.map Prod.fst).Nodup)
    (e : Byte × Int) (he : e ∈ increment m l) :
    (e.1 ≠ l ∧ e ∈ m) ∨ (e.1 = l ∧ (l, e.2 - 1) ∈ m) ∨
      (e.1 = l ∧ l ∉ m.map Prod.fst ∧ e.2 = 1) := by
  induction m with
  | nil =>
    simp only [increment, List.mem_singleton] at he
    subst he
    simp
  | cons e' rest ih =>
    obtain ⟨key, count⟩ := e'
    simp only [List.map_cons, List.nodup_cons] at h
    by_cases hk : key = l
    · subst hk
      simp only [increment, if_true, List.mem_cons] at he
      rcases he with he | he
      · subst he
        right; left
        simp
      · left
        refine ⟨?_, List.mem_cons_of_mem _ he⟩
        intro heq
        exact h.1 (heq ▸ List.mem_map_of_mem Prod.fst he)
    · simp only [increment, hk, if_false, List.mem_cons] at he
      rcases he with he | he
      · subst he
        left
        exact ⟨hk, List.mem_cons_self _ _⟩
      · rcases ih h.2 he with h' | h' | h'
        · left; exact ⟨h'.1, List.mem_cons_of_mem _ h'.2⟩
        · right; left; exact ⟨h'.1, List.mem_cons_of_mem _ h'.2⟩
        · right; right
          refine ⟨h'.1, ?_, h'.2.2⟩
          simp only [List.map_cons, List.mem_cons, not_or]
          exact ⟨fun heq => hk heq.symm, h'.2.1⟩

theorem IsTallyOf.increment {m : List (Byte × Int)} {L : List Byte} (h : IsTallyOf m L)
    (l : Byte) : IsTallyOf (increment m l) (L ++ [l]) := by
  obtain ⟨h₁, h₂, h₃⟩ := h
  refine ⟨nodup_keys_increment m l h₁, ?_, ?_⟩
  · intro x
    rw [mem_keys_increment, h₂]
    simp
  · intro e he
    rw [List.count_append]
    rcases mem_increment m l h₁ e he with h' | h' | h'
    · have : [l].count e.1 = 0 := by
        rw [List.count_eq_zero]
        simp only [List.mem_singleton]
        exact h'.1
      rw [this, h₃ e h'.2]
      simp
    · have h4 := h₃ _ h'.2
      simp only at h4
      rw [h'.1]
      simp only [List.count_singleton_self]
      push_cast
      omega
    · have h5 : L.count l = 0 := by
        rw [List.count_eq_zero, ← h₂]
        exact h'.2.1
      rw [h'.1, h5, h'.2.2]
      simp

theorem isTallyOf_foldl (L : List Byte) :
    ∀ (m : List (Byte × Int)) (L₀ : List Byte), IsTallyOf m L₀ →
      IsTallyOf (L.foldl NumberDetection.increment m) (L₀ ++ L) := by
  induction L with
  | nil => intro m L₀ h; simpa using h
  | cons l rest ih =>
    intro m L₀ h
    have := ih _ _ (h.increment l)
    simpa using this

theorem isTallyOf_countLabels (L : List Byte) : IsTallyOf (countLabels L) L := by
  have h := isTallyOf_foldl L [] [] ⟨by simp, by simp, by simp⟩
  simpa [countLabels] using h

/-- What the vote loop leaves in `(predicted_label, max_count)`. -/
theorem voteLoop_spec (its : List (Byte × Int)) :
    ∀ (pl : Byte) (mc : Int),
      mc ≤ (voteLoop its pl mc).2 ∧ (∀ e ∈ its, e.2 ≤ (voteLoop its pl mc).2) ∧
      (voteLoop its pl mc = (pl, mc) ∨ voteLoop its pl mc ∈ its) := by
  induction its with
  | nil => intro pl mc; simp [voteLoop]
  | cons e rest ih =>
    intro pl mc
    by_cases hgt : e.2 > mc
    · obtain ⟨h₁, h₂, h₃⟩ := ih e.1 e.2
      simp only [voteLoop, hgt, if_true]
      refine ⟨by omega, ?_, ?_⟩
      · intro e' he'
        rcases List.mem_cons.mp he' with h | h
        · rw [h]; exact h₁
        · exact h₂ e' h
      · right
        rcases h₃ with h | h
        · rw [h]; exact List.mem_cons_self _ _
        · exact List.mem_cons_of_mem _ h
    · obtain ⟨h₁, h₂, h₃⟩ := ih pl mc
      simp only [voteLoop, hgt, if_false]
      refine ⟨h₁, ?_, ?_⟩
      · intro e' he'
        rcases List.mem_cons.mp he' with h | h
        · rw [h]; omega
        · exact h₂ e' h
      · rcases h₃ with h | h
        · left; exact h
        · right; exact List.mem_cons_of_mem _ h

/-- The vote over any arrangement of the tally of a non-empty label sequence
returns a label of the sequence whose count is maximal. -/
theorem vote_spec (labels : List Byte) (hne : labels ≠ []) (iterated : List (Byte × Int))
    (hperm : iterated.Perm (countLabels labels)) :
    vote iterated ∈ labels ∧ ∀ l : Byte, labels.count l ≤ labels.count (vote iterated) := by
  obtain ⟨_, hkeys, hcount⟩ := isTallyOf_countLabels labels
  obtain ⟨_, hmax, hmem⟩ := voteLoop_spec iterated 0 0
  have hentry : ∀ l ∈ labels, ∃ e ∈ iterated, e.1 = l ∧ e.2 = (labels.count l : Int) := by
    intro l hl
    have := (hkeys l).mpr hl
    obtain ⟨e, he, rfl⟩ := List.mem_map.mp this
    exact ⟨e, hperm.symm.subset he, rfl, hcount e he⟩
  obtain ⟨l₀, hl₀⟩ := List.exists_mem_of_ne_nil labels hne
  obtain ⟨e₀, he₀, h₀, h₀'⟩ := hentry l₀ hl₀
  have hpos : 0 < labels.count l₀ := List.count_pos_iff.mpr hl₀
  have hin : voteLoop iterated 0 0 ∈ iterated := by
    rcases hmem with h | h
    · exfalso
      have := hmax e₀ he₀
      rw [h, h₀'] at this
      simp only at this
      omega
    · exact h
  have hin' := hperm.subset hin
  have hval := hcount _ hin'
  have hkey : vote iterated ∈ labels := (hkeys _).mp (List.mem_map_of_mem Prod.fst hin')
  refine ⟨hkey, fun l => ?_⟩
  by_cases hl : l ∈ labels
  · obtain ⟨e, he, h₁, h₂⟩ := hentry l hl
    have := hmax e he
    rw [h₂, hval] at this
    exact_mod_cast this
  · rw [List.count_eq_zero.mpr hl]
    exact Nat.zero_le _

/-! ## Loaders -/

theorem ntohl_uint32OfMemory (b0 b1 b2 b3 : Byte) :
    ntohl (uint32OfMemory [b0, b1, b2, b3]) =
      b0.val * 16777216 + b1.val * 65536 + b2.val * 256 + b3.val := by
  have h0 := b0.isLt
  have h1 := b1.isLt
  have h2 := b2.isLt
  have h3 := b3.isLt
  simp only [ntohl, uint32OfMemory]
  omega

/-- Reading a big-endian word on the little-endian host and converting it with
`ntohl` gives back the encoded value. -/
theorem ntohl_bigEndian32 (n : Nat) (h : n < 4294967296) :
    ntohl (uint32OfMemory (bigEndian32 n)) = n := by
  simp only [bigEndian32, ntohl_uint32OfMemory]
  omega

theorem uint32ToInt_of_lt (n : Nat) (h : n < 2147483648) : uint32ToInt n = (n : Int) := by
  simp [uint32ToInt, h]

theorem read_four (b0 b1 b2 b3 : Byte) (tail : List Byte) :
    (IfStream.mk (b0 :: b1 :: b2 :: b3 :: tail) true).read 4 =
      ([b0, b1, b2, b3], IfStream.mk tail true) := by
  simp [IfStream.read]

/-- One iteration of the dimension loop on a stream that starts with a complete
word. -/
theorem readDimensions_succ (n : Nat) (b0 b1 b2 b3 : Byte) (tail : List Byte) :
    readDimensions (n + 1) (IfStream.mk (b0 :: b1 :: b2 :: b3 :: tail) true) =
      (readDimensions n (IfStream.mk tail true)).map fun r =>
        (uint32ToInt (ntohl (uint32OfMemory [b0, b1, b2, b3])) :: r.1, r.2) := by
  rw [readDimensions, read_four]
  simp

/-- On a stream holding `D` complete words followed by `rest`, the dimension
loop reads `D` dimensions and leaves exactly `rest`. -/
theorem readDimensions_complete :
    ∀ (D : Nat) (words rest : List Byte), words.length = 4 * D →
      ∃ dims : List Int, dims.length = D ∧
        readDimensions D (IfStream.mk (words ++ rest) true) =
          some (dims, IfStream.mk rest true) := by
  intro D
  induction D with
  | zero =>
    intro words rest h
    have : words = [] := List.length_eq_zero.mp (by omega)
    subst this
    exact ⟨[], rfl, by simp [readDimensions]⟩
  | succ D ih =>
    intro words rest h
    match words, h with
    | b0 :: b1 :: b2 :: b3 :: tail, h =>
      have ht : tail.length = 4 * D := by simp only [List.length_cons] at h; omega
      obtain ⟨dims, hlen, hd⟩ := ih tail rest ht
      refine ⟨uint32ToInt (ntohl (uint32OfMemory [b0, b1, b2, b3])) :: dims, by simp [hlen], ?_⟩
      simp only [List.cons_append]
      rw [readDimensions_succ, hd]
      rfl
    | [], h => simp at h
    | [_], h => simp at h; omega
    | [_, _], h => simp at h; omega
    | [_, _, _], h => simp at h; omega

theorem readIDXFile_complete (h0 h1 h2 D : Byte) (words rest : List Byte)
    (hw : words.length = 4 * D.val) :
    ∃ dims : List Int, dims.length = D.val ∧
      readIDXFile (some ([h0, h1, h2, D] ++ words ++ rest)) = .ok (rest, dims) := by
  obtain ⟨dims, hlen, hd⟩ := readDimensions_complete D.val words rest hw
  refine ⟨dims, hlen, ?_⟩
  simp only [readIDXFile, List.cons_append, List.nil_append, List.append_assoc, read_four]
  simp [hd]

theorem readIDXFile_three_dimensions (h0 h1 h2 : Byte) (N H W : Nat)
    (hN : N < 2147483648) (hH : H < 2147483648) (hW : W < 2147483648) (p : List Byte) :
    readIDXFile (some ([h0, h1, h2, 3] ++ bigEndian32 N ++ bigEndian32 H ++ bigEndian32 W ++ p))
      = .ok (p, [(N : Int), (H : Int), (W : Int)]) := by
  have eN := ntohl_bigEndian32 N (by omega)
  have eH := ntohl_bigEndian32 H (by omega)
  have eW := ntohl_bigEndian32 W (by omega)
  simp only [bigEndian32] at eN eH eW
  simp only [readIDXFile, bigEndian32, List.cons_append, List.nil_append, read_four]
  have h3 : ((3 : Byte).val) = 2 + 1 := rfl
  simp only [List.get?_eq_getElem?, List.getElem?_cons_succ, List.getElem?_cons_zero, h3,
    readDimensions_succ]
  simp only [readDimensions, eN, eH, eW, Option.map_some', uint32ToInt_of_lt _ hN,
    uint32ToInt_of_lt _ hH, uint32ToInt_of_lt _ hW]

/-- The loader `readLabelFile` returns exactly the `count` bytes that follow the
8-byte prefix. -/
theorem readLabelFile_labels (m0 m1 m2 m3 : Byte) (count : Nat)
    (hc : count < 4294967296) (l trailing : List Byte) (hl : l.length = count) :
    readLabelFile (some ([m0, m1, m2, m3] ++ bigEndian32 count ++ l ++ trailing)) = .ok l := by
  have e := ntohl_bigEndian32 count hc
  simp only [bigEndian32] at e
  simp only [readLabelFile, bigEndian32, List.cons_append, List.nil_append, read_four, e]
  simp [IfStream.read, hl, List.take_append_of_le_length, List.take_of_length_le]

/-- C8: tensor loader round trip. For `N, H, W < 2^31`, pixels `p` of length
`N*H*W` and any header bytes `h0 h1 h2`, parsing
`[h0, h1, h2, 3] ++ bigEndian32 N ++ bigEndian32 H ++ bigEndian32 W ++ p` with
`readIDXFile` returns the data buffer `p`, of `N*H*W` bytes, and the dimension
vector `[N, H, W]`. -/
theorem C8_tensor_round_trip (h0 h1 h2 : Byte) (N H W : Nat)
    (hN : N < 2147483648) (hH : H < 2147483648) (hW : W < 2147483648)
    (p : List Byte) (hp : p.length = N * H * W) :
    ∃ (data : List Byte) (dimensions : List Int),
      readIDXFile
        (some ([h0, h1, h2, 3] ++ bigEndian32 N ++ bigEndian32 H ++ bigEndian32 W ++ p)) =
        .ok (data, dimensions) ∧
      data = p ∧ data.length = N * H * W ∧ dimensions = [(N : Int), (H : Int), (W : Int)] :=
  ⟨p, _, readIDXFile_three_dimensions h0 h1 h2 N H W hN hH hW p, rfl, hp, rfl⟩

/-- C8, witness: one 2x2 image. -/
theorem C8_witness :
    ([1, 2, 3, 4] : List Byte).length = 1 * 2 * 2 ∧
    ∃ (data : List Byte) (dimensions : List Int),
      readIDXFile (some ([0, 0, 8, 3] ++ bigEndian32 1 ++ bigEndian32 2 ++ bigEndian32 2 ++
        [1, 2, 3, 4])) = .ok (data, dimensions) ∧
      data = [1, 2, 3, 4] ∧ data.length = 1 * 2 * 2 ∧
      dimensions = [((1 : Nat) : Int), ((2 : Nat) : Int), ((2 : Nat) : Int)] :=
  ⟨rfl, C8_tensor_round_trip 0 0 8 1 2 2 (by norm_num) (by norm_num) (by norm_num)
    [1, 2, 3, 4] rfl⟩

/-- C9 (as amended): `readIDXFile` does not compare the number of remaining
bytes with the product of the dimensions. For every file made of a 4-byte
header announcing `D` dimensions, `D` complete dimension words and any
remaining bytes `rest`, it returns `rest` as the data buffer together with `D`
dimensions, however few bytes `rest` has. -/
theorem C9_no_length_validation (h0 h1 h2 D : Byte) (words rest : List Byte)
    (hw : words.length = 4 * D.val) :
    ∃ dimensions : List Int, dimensions.length = D.val ∧
      readIDXFile (some ([h0, h1, h2, D] ++ words ++ rest)) = .ok (rest, dimensions) :=
  readIDXFile_complete h0 h1 h2 D words rest hw

/-- C9, witness: two dimension words, 2 and 3, followed by a single data byte. -/
theorem C9_witness :
    ([0, 0, 0, 2, 0, 0, 0, 3] : List Byte).length = 4 * (2 : Byte).val ∧
    ∃ dimensions : List Int, dimensions.length = (2 : Byte).val ∧
      readIDXFile (some ([0, 0, 8, 2] ++ [0, 0, 0, 2, 0, 0, 0, 3] ++ [7])) =
        .ok ([7], dimensions) :=
  ⟨rfl, C9_no_length_validation 0 0 8 2 [0, 0, 0, 2, 0, 0, 0, 3] [7] rfl⟩

/-- C9, counterexample to the claim as stated: a file announcing one dimension
of 5 items and holding no data byte at all is accepted: no error is raised,
and the returned buffer has 0 bytes, fewer than the product 5. -/
theorem C9_counterexample :
    readIDXFile (some [0, 0, 8, 1, 0, 0, 0, 5]) = .ok ([], [5]) ∧
    (([] : List Byte).length : Int) < List.prod [(5 : Int)] := by
  constructor
  · rfl
  · decide

/-- C10: label loader parsing. For every count below 2^32 and every label
sequence `l` of that length, parsing any 4 header bytes, `bigEndian32 count`,
`l` and any trailing bytes with `readLabelFile` returns exactly `l`: a buffer
of `count` bytes, the bytes that follow the 8-byte prefix, whatever the header
bytes and the trailing bytes are. -/
theorem C10_label_loader_parsing (m0 m1 m2 m3 : Byte) (count : Nat)
    (hc : count < 4294967296) (l trailing : List Byte) (hl : l.length = count) :
    ∃ labels : List Byte,
      readLabelFile (some ([m0, m1, m2, m3] ++ bigEndian32 count ++ l ++ trailing)) =
        .ok labels ∧
      labels = l ∧ labels.length = count :=
  ⟨l, readLabelFile_labels m0 m1 m2 m3 count hc l trailing hl, rfl, hl⟩

/-- C10, witness: three labels followed by two trailing bytes. -/
theorem C10_witness :
    ([7, 8, 9] : List Byte).length = 3 ∧
    ∃ labels : List Byte,
      readLabelFile (some ([0, 0, 8, 1] ++ bigEndian32 3 ++ [7, 8, 9] ++ [1, 1])) =
        .ok labels ∧
      labels = [7, 8, 9] ∧ labels.length = 3 :=
  ⟨rfl, C10_label_loader_parsing 0 0 8 1 3 (by norm_num) [7, 8, 9] [1, 1] rfl⟩

/-- On a label file whose data is shorter than its count announces,
`readLabelFile` returns the bytes present followed by zero bytes. -/
theorem readLabelFile_short (m0 m1 m2 m3 : Byte) (count : Nat) (_ : 0 < count)
    (hc : count < 4294967296) (present : List Byte) (hl : present.length < count) :
    readLabelFile (some ([m0, m1, m2, m3] ++ bigEndian32 count ++ present)) =
      .ok (present ++ List.replicate (count - present.length) 0) := by
  have e := ntohl_bigEndian32 count hc
  simp only [bigEndian32] at e
  simp only [readLabelFile, bigEndian32, List.cons_append, List.nil_append, read_four, e]
  simp [IfStream.read, List.take_of_length_le (le_of_lt hl)]

/-- C11 (as amended): `readLabelFile` does not fail on a truncated label file.
For every file made of a 4-byte header, a big-endian count `count` and fewer
than `count` further bytes, it returns a label buffer of exactly `count` bytes:
the bytes present, followed by zero bytes. -/
theorem C11_truncated_labels_zero_padded (m0 m1 m2 m3 : Byte) (count : Nat)
    (hc : count < 4294967296) (present : List Byte) (hl : present.length < count) :
    ∃ labels : List Byte,
      readLabelFile (some ([m0, m1, m2, m3] ++ bigEndian32 count ++ present)) = .ok labels ∧
      labels = present ++ List.replicate (count - present.length) 0 ∧
      labels.length = count := by
  refine ⟨_, readLabelFile_short m0 m1 m2 m3 count (by omega) hc present hl, rfl, ?_⟩
  rw [List.length_append, List.length_replicate]
  omega

/-- C11, witness: a count of 3 followed by two label bytes. -/
theorem C11_witness :
    ([7, 8] : List Byte).length < 3 ∧
    ∃ labels : List Byte,
      readLabelFile (some ([0, 0, 8, 1] ++ bigEndian32 3 ++ [7, 8])) = .ok labels ∧
      labels = [7, 8] ++ List.replicate (3 - ([7, 8] : List Byte).length) 0 ∧
      labels.length = 3 :=
  ⟨by decide,
    C11_truncated_labels_zero_padded 0 0 8 1 3 (by norm_num) [7, 8] (by decide)⟩

/-- C11, counterexample to the claim as stated: the file announces 3 labels and
holds 2; the loader raises no error and returns the buffer `[7, 8, 0]`. -/
theorem C11_counterexample :
    ([0, 0, 8, 1] : List Byte) ++ bigEndian32 3 ++ [7, 8] = [0, 0, 8, 1, 0, 0, 0, 3, 7, 8] ∧
    readLabelFile (some [0, 0, 8, 1, 0, 0, 0, 3, 7, 8]) = .ok [7, 8, 0] := by
  constructor
  · decide
  · rfl

/-! ## Classification driver -/

theorem length_std_sort (l : List (Int × Int)) : (std_sort l).length = l.length :=
  (List.perm_insertionSort pairLe l).length_eq

theorem mem_std_sort {l : List (Int × Int)} {x : Int × Int} : x ∈ std_sort l ↔ x ∈ l :=
  (List.perm_insertionSort pairLe l).mem_iff

theorem length_distancePairs (train_data test_data : List Byte) (q t n : Nat) :
    (distancePairs train_data test_data q t n).length = n := by
  simp [distancePairs]

theorem pairAt_natCast (ds : List (Int × Int)) (i : Nat) : pairAt ds (i : Int) = ds.get? i := by
  simp [pairAt]

/-- The tally loop runs to its end when the positions it reads exist in
`distances` and every index stored there is a position of `train_labels`. -/
theorem tallyLoop_total (train_labels : List Byte) (ds : List (Int × Int))
    (hidx : ∀ p ∈ ds, 0 ≤ p.2 ∧ p.2 < (train_labels.length : Int)) :
    ∀ (n i : Nat) (m : List (Byte × Int)), i + n ≤ ds.length →
      ∃ m', tallyLoop train_labels ds n (i : Int) m = some m' := by
  intro n
  induction n with
  | zero => intro i m _; exact ⟨m, rfl⟩
  | succ n ih =>
    intro i m h
    have hi : i < ds.length := by omega
    have hp := hidx _ (List.get_mem ds i hi)
    have e₁ : pairAt ds (i : Int) = some (ds.get ⟨i, hi⟩) := by
      rw [pairAt_natCast, List.get?_eq_get hi]
    obtain ⟨k, hk⟩ := Int.eq_ofNat_of_zero_le hp.1
    have hk' : k < train_labels.length := by
      have := hp.2
      rw [hk] at this
      exact_mod_cast this
    have e₂ : readAt train_labels (ds.get ⟨i, hi⟩).2 = some (train_labels.getD k 0) := by
      rw [hk]; exact readAt_natCast hk'
    have ei : ((i : Int) + 1) = ((i + 1 : Nat) : Int) := by push_cast; rfl
    rw [tallyLoop, e₁, Option.some_bind, e₂, Option.some_bind, ei]
    exact ih (i + 1) _ (by omega)

/-- The tally loop has no defined result when it is to read a position beyond the
end of `distances`. -/
theorem tallyLoop_short (train_labels : List Byte) (ds : List (Int × Int)) :
    ∀ (n i : Nat) (m : List (Byte × Int)), 0 < n → ds.length < i + n →
      tallyLoop train_labels ds n (i : Int) m = none := by
  intro n
  induction n with
  | zero => intro i m h; omega
  | succ n ih =>
    intro i m _ h
    have ei : ((i : Int) + 1) = ((i + 1 : Nat) : Int) := by push_cast; rfl
    rw [tallyLoop, pairAt_natCast]
    rcases hget : ds.get? i with _ | pair
    · rfl
    · simp only [Option.some_bind]
      rcases readAt train_labels pair.2 with _ | label
      · rfl
      · simp only [Option.some_bind]
        have hi : i < ds.length := by
          by_contra hcon
          rw [List.get?_eq_none.mpr (by omega)] at hget
          cases hget
        rw [ei]
        exact ih (i + 1) _ (by omega) (by omega)

/-- With at least `k = 5` reference images, all inside `train_data` and labelled,
and the query image inside `test_data`, the prediction is defined. -/
theorem classify_total (order : List (Byte × Int) → List (Byte × Int))
    (train_data test_data train_labels : List Byte) (N q : Nat) (hk : 5 ≤ N)
    (hN : N * 784 ≤ train_data.length) (hN' : N * 784 ≤ 2147483647)
    (hL : N ≤ train_labels.length)
    (hq : q * 784 + 784 ≤ test_data.length) (hq' : q * 784 + 784 ≤ 2147483647) :
    ∃ label, classify order train_data test_data train_labels (N : Int) (q : Int) =
      some label := by
  have hd := distancesLoop_eq train_data test_data q hq (by omega) N 0 [] (by omega) (by omega)
  simp only [List.nil_append, Nat.cast_zero] at hd
  have hidx : ∀ p ∈ std_sort (distancePairs train_data test_data q 0 N),
      0 ≤ p.2 ∧ p.2 < (train_labels.length : Int) := by
    intro p hp
    obtain ⟨i, _, hi, h₂, _⟩ := mem_distancePairs (mem_std_sort.mp hp)
    rw [h₂]
    constructor
    · exact Int.natCast_nonneg i
    · exact_mod_cast (by omega : i < train_labels.length)
  obtain ⟨m', hm'⟩ := tallyLoop_total train_labels _ hidx 5 0 []
    (by rw [length_std_sort, length_distancePairs]; omega)
  simp only [Nat.cast_zero] at hm'
  refine ⟨vote (order m'), ?_⟩
  simp only [classify, Int.toNat_ofNat]
  rw [hd, Option.some_bind, hm', Option.some_bind]

/-- With fewer than `k = 5` reference images the prediction has no defined
result: the tally loop reads `distances[N]`, beyond the end of the vector. -/
theorem classify_few (order : List (Byte × Int) → List (Byte × Int))
    (train_data test_data train_labels : List Byte) (N q : Nat) (hk : N < 5)
    (hN : N * 784 ≤ train_data.length)
    (hq : q * 784 + 784 ≤ test_data.length) (hq' : q * 784 + 784 ≤ 2147483647) :
    classify order train_data test_data train_labels (N : Int) (q : Int) = none := by
  have hd := distancesLoop_eq train_data test_data q hq (by omega) N 0 [] (by omega) (by omega)
  simp only [List.nil_append, Nat.cast_zero] at hd
  have ht := tallyLoop_short train_labels (std_sort (distancePairs train_data test_data q 0 N))
    5 0 [] (by omega) (by rw [length_std_sort, length_distancePairs]; omega)
  simp only [Nat.cast_zero] at ht
  simp only [classify, Int.toNat_ofNat]
  rw [hd, Option.some_bind, ht, Option.none_bind]

theorem classificationLoop_succ (order : List (Byte × Int) → List (Byte × Int))
    (train_data test_data train_labels test_labels : List Byte) (num_train_images : Int)
    (n : Nat) (t : Int) (s : Progress) :
    classificationLoop order train_data test_data train_labels test_labels num_train_images
        (n + 1) t s =
      (classificationStep order train_data test_data train_labels test_labels num_train_images
        t s).bind fun s' =>
      classificationLoop order train_data test_data train_labels test_labels num_train_images
        n (t + 1) s' := rfl

/-- Running `m + n` iterations is running `m` iterations and then `n` more. -/
theorem classificationLoop_add (order : List (Byte × Int) → List (Byte × Int))
    (train_data test_data train_labels test_labels : List Byte) (num_train_images : Int)
    (n : Nat) :
    ∀ (m : Nat) (t : Int) (s : Progress),
      classificationLoop order train_data test_data train_labels test_labels num_train_images
          (m + n) t s =
        (classificationLoop order train_data test_data train_labels test_labels
          num_train_images m t s).bind fun s' =>
        classificationLoop order train_data test_data train_labels test_labels
          num_train_images n (t + (m : Int)) s' := by
  intro m
  induction m with
  | zero =>
    intro t s
    simp [classificationLoop]
  | succ m ih =>
    intro t s
    have e : m + 1 + n = (m + n) + 1 := by omega
    rw [e, classificationLoop_succ, classificationLoop_succ]
    rcases classificationStep order train_data test_data train_labels test_labels
      num_train_images t s with _ | s₁
    · rfl
    · simp only [Option.some_bind]
      rw [ih (t + 1) s₁]
      have e' : t + 1 + (m : Int) = t + ((m + 1 : Nat) : Int) := by push_cast; ring
      rw [e']

/-- What one iteration of the classification loop does when it completes. -/
theorem classificationStep_eq_some {order : List (Byte × Int) → List (Byte × Int)}
    {train_data test_data train_labels test_labels : List Byte} {num_train_images : Int}
    {t : Int} {s s' : Progress}
    (h : classificationStep order train_data test_data train_labels test_labels
      num_train_images t s = some s') :
    ∃ predicted truth,
      classify order train_data test_data train_labels num_train_images t = some predicted ∧
      readAt test_labels t = some truth ∧
      s'.stdout = s.stdout ++ [classifiedLine t predicted] ∧
      s'.correct_predictions =
        if predicted = truth then s.correct_predictions + 1 else s.correct_predictions := by
  simp only [classificationStep, Option.bind_eq_some] at h
  obtain ⟨predicted, h₁, truth, h₂, h₃⟩ := h
  simp only [Option.some.injEq] at h₃
  subst h₃
  exact ⟨predicted, truth, h₁, h₂, rfl, rfl⟩

/-- What a completed run of the classification loop leaves: one line per query
processed, in order, and the number of correct predictions added to the counter. -/
theorem classificationLoop_eq_some (order : List (Byte × Int) → List (Byte × Int))
    (train_data test_data train_labels test_labels : List Byte) (num_train_images : Int) :
    ∀ (n t : Nat) (s s' : Progress),
      classificationLoop order train_data test_data train_labels test_labels num_train_images
        n (t : Int) s = some s' →
      (∀ i, t ≤ i → i < t + n → ∃ label,
        classify order train_data test_data train_labels num_train_images (i : Int) =
          some label ∧
        s'.stdout.get? (s.stdout.length + (i - t)) = some (classifiedLine (i : Int) label)) ∧
      (∀ j, j < s.stdout.length → s'.stdout.get? j = s.stdout.get? j) ∧
      s'.stdout.length = s.stdout.length + n ∧
      s'.correct_predictions = s.correct_predictions +
        ((List.range' t n).countP (isCorrect order train_data test_data train_labels
          test_labels num_train_images) : Nat) := by
  intro n
  induction n with
  | zero =>
    intro t s s' h
    simp only [classificationLoop, Option.some.injEq] at h
    subst h
    refine ⟨fun i h₁ h₂ => by omega, fun _ _ => rfl, rfl, by simp⟩
  | succ n ih =>
    intro t s s' h
    rw [classificationLoop_succ, Option.bind_eq_some] at h
    obtain ⟨s₁, hstep, hrest⟩ := h
    obtain ⟨predicted, truth, hp, ht, hout, hcnt⟩ := classificationStep_eq_some hstep
    have et : ((t : Int) + 1) = ((t + 1 : Nat) : Int) := by push_cast; rfl
    rw [et] at hrest
    obtain ⟨h₁, h₂, h₃, h₄⟩ := ih (t + 1) s₁ s' hrest
    have hlen : s₁.stdout.length = s.stdout.length + 1 := by simp [hout]
    refine ⟨?_, ?_, ?_, ?_⟩
    · intro i hi hi'
      by_cases hit : i = t
      · subst hit
        refine ⟨predicted, hp, ?_⟩
        rw [Nat.sub_self, Nat.add_zero, h₂ _ (by omega), hout]
        simp
      · obtain ⟨label, hl, hline⟩ := h₁ i (by omega) (by omega)
        refine ⟨label, hl, ?_⟩
        rw [← hline, hlen]
        congr 1
        omega
    · intro j hj
      rw [h₂ j (by omega), hout, List.get?_eq_getElem?, List.get?_eq_getElem?,
        List.getElem?_append_left hj]
    · omega
    · rw [h₄, hcnt, List.range'_succ, List.countP_cons]
      have hc : isCorrect order train_data test_data train_labels test_labels
          num_train_images t = decide (predicted = truth) := by
        simp only [isCorrect, hp, ht]
      rw [hc]
      by_cases hpt : predicted = truth
      · simp only [hpt, if_true, decide_True]
        push_cast
        ring
      · simp only [hpt, if_false, decide_False]
        push_cast
        ring

/-- Safety of the classification loop: with at least `k = 5` reference images,
all images inside their buffers at representable offsets and a label for every
image, no iteration reads outside a buffer. -/
theorem classificationLoop_total (order : List (Byte × Int) → List (Byte × Int))
    (train_data test_data train_labels test_labels : List Byte) (Ntrain Ntest : Nat)
    (hk : 5 ≤ Ntrain)
    (hN : Ntrain * 784 ≤ train_data.length) (hN' : Ntrain * 784 ≤ 2147483647)
    (hL : Ntrain ≤ train_labels.length)
    (hT : Ntest * 784 ≤ test_data.length) (hT' : Ntest * 784 ≤ 2147483647)
    (hTL : Ntest ≤ test_labels.length) :
    ∀ (n t : Nat) (s : Progress), t + n ≤ Ntest →
      ∃ s', classificationLoop order train_data test_data train_labels test_labels
        (Ntrain : Int) n (t : Int) s = some s' := by
  intro n
  induction n with
  | zero => intro t s _; exact ⟨s, rfl⟩
  | succ n ih =>
    intro t s h
    have ht : t * 784 + 784 ≤ Ntest * 784 := by nlinarith
    obtain ⟨label, hl⟩ := classify_total order train_data test_data train_labels Ntrain t hk
      hN hN' hL (by omega) (by omega)
    have hr : readAt test_labels (t : Int) = some (test_labels.getD t 0) :=
      readAt_natCast (by omega)
    have et : ((t : Int) + 1) = ((t + 1 : Nat) : Int) := by push_cast; rfl
    rw [classificationLoop_succ]
    simp only [classificationStep, hl, hr, Option.some_bind]
    rw [et]
    exact ih (t + 1) _ (by omega)

/-- Once the four loads have succeeded, `main` is its classification loop
followed by the accuracy line. -/
theorem main_of_loads (order : List (Byte × Int) → List (Byte × Int))
    (showDouble : Option Rat → String)
    {train_images test_images train_label_file test_label_file : Option (List Byte)}
    {train_data test_data train_labels test_labels : List Byte}
    {train_dimensions test_dimensions : List Int} {Ntrain Ntest : Int}
    (h₁ : readIDXFile train_images = .ok (train_data, train_dimensions))
    (h₂ : readIDXFile test_images = .ok (test_data, test_dimensions))
    (h₃ : readLabelFile train_label_file = .ok train_labels)
    (h₄ : readLabelFile test_label_file = .ok test_labels)
    (hN : train_dimensions.get? 0 = some Ntrain) (hT : test_dimensions.get? 0 = some Ntest) :
    main order showDouble train_images test_images train_label_file test_label_file =
      (classificationLoop order train_data test_data train_labels test_labels Ntrain
        Ntest.toNat 0 { stdout := [], correct_predictions := 0 }).bind fun s =>
      some { stdout := s.stdout ++
               [accuracyLine showDouble (accuracyPercent s.correct_predictions Ntest)],
             stderr := [], exit_code := 0 } := by
  simp only [main, h₁, h₂, h₃, h₄, hN, hT, Option.some_bind]

/-- What a run of `main` that gets through its loads and its loop has written. -/
theorem main_spec (order : List (Byte × Int) → List (Byte × Int))
    (showDouble : Option Rat → String)
    {train_images test_images train_label_file test_label_file : Option (List Byte)}
    {train_data test_data train_labels test_labels : List Byte}
    {train_dimensions test_dimensions : List Int} {Ntrain Ntest : Int} {out : Outcome}
    (h₁ : readIDXFile train_images = .ok (train_data, train_dimensions))
    (h₂ : readIDXFile test_images = .ok (test_data, test_dimensions))
    (h₃ : readLabelFile train_label_file = .ok train_labels)
    (h₄ : readLabelFile test_label_file = .ok test_labels)
    (hN : train_dimensions.get? 0 = some Ntrain) (hT : test_dimensions.get? 0 = some Ntest)
    (hrun : main order showDouble train_images test_images train_label_file test_label_file =
      some out) :
    out.exit_code = 0 ∧ out.stderr = [] ∧ out.stdout.length = Ntest.toNat + 1 ∧
    (∀ i : Nat, i < Ntest.toNat → ∃ label,
      classify order train_data test_data train_labels Ntrain (i : Int) = some label ∧
      out.stdout.get? i = some (classifiedLine (i : Int) label)) ∧
    out.stdout.get? Ntest.toNat = some (accuracyLine showDouble (accuracyPercent
      (((List.range Ntest.toNat).countP (isCorrect order train_data test_data train_labels
        test_labels Ntrain) : Nat) : Int) Ntest)) := by
  rw [main_of_loads order showDouble h₁ h₂ h₃ h₄ hN hT, Option.bind_eq_some] at hrun
  obtain ⟨s, hloop, hout⟩ := hrun
  simp only [Option.some.injEq] at hout
  subst hout
  have hloop' : classificationLoop order train_data test_data train_labels test_labels Ntrain
      Ntest.toNat ((0 : Nat) : Int) { stdout := [], correct_predictions := 0 } = some s := hloop
  obtain ⟨hl, _, hlen, hcnt⟩ := classificationLoop_eq_some order train_data test_data
    train_labels test_labels Ntrain Ntest.toNat 0 _ s hloop'
  simp only [List.length_nil, Nat.zero_add, Nat.sub_zero, zero_add] at hl hlen hcnt
  refine ⟨rfl, rfl, by simp [hlen], ?_, ?_⟩
  · intro i hi
    obtain ⟨label, h, hline⟩ := hl i (Nat.zero_le _) hi
    refine ⟨label, h, ?_⟩
    rw [← hline, List.get?_eq_getElem?, List.get?_eq_getElem?,
      List.getElem?_append_left (by omega)]
  · rw [hcnt, List.range_eq_range']
    simp [List.get?_eq_getElem?, ← hlen]

/-- Under the preconditions of the loop, a run of `main` whose loads succeed
completes. -/
theorem main_total (order : List (Byte × Int) → List (Byte × Int))
    (showDouble : Option Rat → String)
    {train_images test_images train_label_file test_label_file : Option (List Byte)}
    {train_data test_data train_labels test_labels : List Byte}
    {train_dimensions test_dimensions : List Int} {Ntrain Ntest : Nat}
    (h₁ : readIDXFile train_images = .ok (train_data, train_dimensions))
    (h₂ : readIDXFile test_images = .ok (test_data, test_dimensions))
    (h₃ : readLabelFile train_label_file = .ok train_labels)
    (h₄ : readLabelFile test_label_file = .ok test_labels)
    (hN : train_dimensions.get? 0 = some (Ntrain : Int))
    (hT : test_dimensions.get? 0 = some (Ntest : Int))
    (hk : 5 ≤ Ntrain)
    (hNd : Ntrain * 784 ≤ train_data.length) (hN' : Ntrain * 784 ≤ 2147483647)
    (hL : Ntrain ≤ train_labels.length)
    (hTd : Ntest * 784 ≤ test_data.length) (hT' : Ntest * 784 ≤ 2147483647)
    (hTL : Ntest ≤ test_labels.length) :
    ∃ out, main order showDouble train_images test_images train_label_file test_label_file =
      some out := by
  obtain ⟨s, hs⟩ := classificationLoop_total order train_data test_data train_labels
    test_labels Ntrain Ntest hk hNd hN' hL hTd hT' hTL Ntest 0
    { stdout := [], correct_predictions := 0 } (by omega)
  rw [main_of_loads order showDouble h₁ h₂ h₃ h₄ hN hT]
  simp only [Int.toNat_ofNat]
  simp only [Nat.cast_zero] at hs
  rw [hs]
  exact ⟨_, rfl⟩

/-! ## Example inputs -/

theorem length_constantImage (v : Byte) : (constantImage v).length = 784 :=
  List.length_replicate _ _

theorem length_zeroImages (n : Nat) : (zeroImages n).length = n * 784 :=
  List.length_replicate _ _

theorem readIDXFile_zeroImageFile (n : Nat) (h : n < 2147483648) :
    readIDXFile (some (zeroImageFile n)) = .ok (zeroImages n, [(n : Int), 28, 28]) :=
  readIDXFile_three_dimensions 0 0 8 n 28 28 h (by norm_num) (by norm_num) (zeroImages n)

theorem readLabelFile_labelFile (labels : List Byte) (_ : 0 < labels.length)
    (h : labels.length < 4294967296) :
    readLabelFile (some (labelFile labels)) = .ok labels := by
  have := readLabelFile_labels 0 0 8 1 labels.length h labels [] rfl
  simpa [labelFile] using this

/-- A run of `main` on example files: `n` all-zero reference images with the
labels `train_labels`, `t` all-zero query images with the labels `test_labels`. -/
theorem main_example (n t : Nat) (train_labels test_labels : List Byte)
    (hk : 5 ≤ n) (hn : n * 784 ≤ 2147483647) (ht : t * 784 ≤ 2147483647)
    (hL : n ≤ train_labels.length) (hL' : train_labels.length < 4294967296)
    (hT : t ≤ test_labels.length) (hT₀ : 0 < test_labels.length)
    (hT' : test_labels.length < 4294967296) :
    ∃ out, main id showExact (some (zeroImageFile n)) (some (zeroImageFile t))
        (some (labelFile train_labels)) (some (labelFile test_labels)) = some out ∧
      out.exit_code = 0 ∧ out.stderr = [] ∧ out.stdout.length = t + 1 ∧
      ∀ i : Nat, i < t → ∃ label, out.stdout.get? i = some (classifiedLine (i : Int) label) := by
  have h₁ := readIDXFile_zeroImageFile n (by omega)
  have h₂ := readIDXFile_zeroImageFile t (by omega)
  have h₃ := readLabelFile_labelFile train_labels (by omega) hL'
  have h₄ := readLabelFile_labelFile test_labels hT₀ hT'
  have hN : [(n : Int), 28, 28].get? 0 = some (n : Int) := rfl
  have hT₁ : [(t : Int), 28, 28].get? 0 = some (t : Int) := rfl
  obtain ⟨out, hout⟩ := main_total id showExact h₁ h₂ h₃ h₄ hN hT₁ hk
    (by rw [length_zeroImages]) hn hL (by rw [length_zeroImages]) ht hT
  obtain ⟨e₁, e₂, e₃, e₄, _⟩ := main_spec id showExact h₁ h₂ h₃ h₄ hN hT₁ hout
  simp only [Int.toNat_ofNat] at e₃ e₄
  refine ⟨out, hout, e₁, e₂, e₃, fun i hi => ?_⟩
  obtain ⟨label, _, h⟩ := e₄ i hi
  exact ⟨label, h⟩

/-- The counter after `m` iterations of a loop that runs to its end, and the
step from there. -/
theorem classificationLoop_prefix (order : List (Byte × Int) → List (Byte × Int))
    (train_data test_data train_labels test_labels : List Byte) (Ntrain : Int) (T : Nat)
    (final : Progress)
    (hrun : classificationLoop order train_data test_data train_labels test_labels Ntrain T 0
      { stdout := [], correct_predictions := 0 } = some final)
    (m : Nat) (hm : m ≤ T) :
    ∃ s, classificationLoop order train_data test_data train_labels test_labels Ntrain m 0
        { stdout := [], correct_predictions := 0 } = some s ∧
      0 ≤ s.correct_predictions ∧ s.correct_predictions ≤ (m : Int) ∧
      (m < T → ∃ predicted truth s',
        classify order train_data test_data train_labels Ntrain (m : Int) = some predicted ∧
        readAt test_labels (m : Int) = some truth ∧
        classificationLoop order train_data test_data train_labels test_labels Ntrain (m + 1) 0
          { stdout := [], correct_predictions := 0 } = some s' ∧
        s'.correct_predictions =
          if predicted = truth then s.correct_predictions + 1 else s.correct_predictions) := by
  have split : ∀ a b : Nat, a + b = T → ∃ s,
      classificationLoop order train_data test_data train_labels test_labels Ntrain a 0
        { stdout := [], correct_predictions := 0 } = some s ∧
      classificationLoop order train_data test_data train_labels test_labels Ntrain b
        (a : Int) s = some final := by
    intro a b hab
    have h := classificationLoop_add order train_data test_data train_labels test_labels
      Ntrain b a 0 { stdout := [], correct_predictions := 0 }
    rw [hab, hrun, zero_add] at h
    obtain ⟨s, hs, hs'⟩ := Option.bind_eq_some.mp h.symm
    exact ⟨s, hs, hs'⟩
  obtain ⟨s, hs, _⟩ := split m (T - m) (by omega)
  have hs₀ : classificationLoop order train_data test_data train_labels test_labels Ntrain m
      ((0 : Nat) : Int) { stdout := [], correct_predictions := 0 } = some s := hs
  obtain ⟨_, _, _, hcnt⟩ := classificationLoop_eq_some order train_data test_data train_labels
    test_labels Ntrain m 0 _ s hs₀
  have hle := List.countP_le_length (isCorrect order train_data test_data train_labels
    test_labels Ntrain) (l := List.range' 0 m)
  rw [List.length_range'] at hle
  simp only [zero_add] at hcnt
  refine ⟨s, hs, by rw [hcnt]; exact Int.natCast_nonneg _, by rw [hcnt]; exact_mod_cast hle, ?_⟩
  intro hlt
  obtain ⟨s', hs', _⟩ := split (m + 1) (T - (m + 1)) (by omega)
  have h := classificationLoop_add order train_data test_data train_labels test_labels
    Ntrain 1 m 0 { stdout := [], correct_predictions := 0 }
  rw [hs', hs, Option.some_bind, zero_add, classificationLoop_succ] at h
  obtain ⟨s₁, hstep, hzero⟩ := Option.bind_eq_some.mp h.symm
  simp only [classificationLoop, Option.some.injEq] at hzero
  subst hzero
  obtain ⟨predicted, truth, hp, ht, _, hc⟩ := classificationStep_eq_some hstep
  exact ⟨predicted, truth, s₁, hp, ht, hs', hc⟩

/-! ## Classification driver: the specification's properties -/

/-- C12 (as amended): the driver makes no consistency check. Whenever the four
loads succeed, the reference set has at least 5 images, both tensors hold the
images their leading dimension announces (at representable offsets) and each
label set has at least as many labels as its tensor has items, `main` raises no
error: it prints a prediction for every query image and exits with code 0,
whether or not the label-set lengths equal the leading dimensions. -/
theorem C12_no_consistency_check (order : List (Byte × Int) → List (Byte × Int))
    (showDouble : Option Rat → String)
    (train_images test_images train_label_file test_label_file : Option (List Byte))
    (train_data test_data train_labels test_labels : List Byte)
    (train_dimensions test_dimensions : List Int) (Ntrain Ntest : Nat)
    (h₁ : readIDXFile train_images = .ok (train_data, train_dimensions))
    (h₂ : readIDXFile test_images = .ok (test_data, test_dimensions))
    (h₃ : readLabelFile train_label_file = .ok train_labels)
    (h₄ : readLabelFile test_label_file = .ok test_labels)
    (hN : train_dimensions.get? 0 = some (Ntrain : Int))
    (hT : test_dimensions.get? 0 = some (Ntest : Int))
    (hk : 5 ≤ Ntrain)
    (hNd : Ntrain * 784 ≤ train_data.length) (hN' : Ntrain * 784 ≤ 2147483647)
    (hL : Ntrain ≤ train_labels.length)
    (hTd : Ntest * 784 ≤ test_data.length) (hT' : Ntest * 784 ≤ 2147483647)
    (hTL : Ntest ≤ test_labels.length) :
    ∃ out, main order showDouble train_images test_images train_label_file test_label_file =
        some out ∧
      out.exit_code = 0 ∧ out.stderr = [] ∧ out.stdout.length = Ntest + 1 ∧
      ∀ i : Nat, i < Ntest → ∃ label,
        classify order train_data test_data train_labels (Ntrain : Int) (i : Int) =
          some label ∧
        out.stdout.get? i = some (classifiedLine (i : Int) label) := by
  obtain ⟨out, hout⟩ := main_total order showDouble h₁ h₂ h₃ h₄ hN hT hk hNd hN' hL hTd hT' hTL
  obtain ⟨e₁, e₂, e₃, e₄, _⟩ := main_spec order showDouble h₁ h₂ h₃ h₄ hN hT hout
  simp only [Int.toNat_ofNat] at e₃ e₄
  exact ⟨out, hout, e₁, e₂, e₃, e₄⟩

/-- C12, witness: five reference images with six labels, one query image with
one label. -/
theorem C12_witness :
    readLabelFile (some (labelFile [0, 0, 0, 0, 0, 0])) = .ok [0, 0, 0, 0, 0, 0] ∧
    ([0, 0, 0, 0, 0, 0] : List Byte).length ≠ 5 ∧
    ∃ out, main id showExact (some (zeroImageFile 5)) (some (zeroImageFile 1))
        (some (labelFile [0, 0, 0, 0, 0, 0])) (some (labelFile [0])) = some out ∧
      out.exit_code = 0 ∧ out.stdout.length = 1 + 1 := by
  have h₃ : readLabelFile (some (labelFile [0, 0, 0, 0, 0, 0])) = .ok [0, 0, 0, 0, 0, 0] :=
    readLabelFile_labelFile _ (by decide) (by decide)
  obtain ⟨out, h, e₁, _, e₃, _⟩ := C12_no_consistency_check id showExact
    (some (zeroImageFile 5)) (some (zeroImageFile 1)) (some (labelFile [0, 0, 0, 0, 0, 0]))
    (some (labelFile [0])) (zeroImages 5) (zeroImages 1) [0, 0, 0, 0, 0, 0] [0]
    [((5 : Nat) : Int), 28, 28] [((1 : Nat) : Int), 28, 28] 5 1
    (readIDXFile_zeroImageFile 5 (by norm_num)) (readIDXFile_zeroImageFile 1 (by norm_num))
    h₃ (readLabelFile_labelFile _ (by decide) (by decide)) rfl rfl (le_refl _)
    (by rw [length_zeroImages]) (by norm_num) (by decide) (by rw [length_zeroImages])
    (by norm_num) (by decide)
  exact ⟨h₃, by decide, out, h, e₁, e₃⟩

/-- C12, counterexample to the claim as stated: the reference tensor has 5 items
and its label set 7 labels, the query tensor has 1 item and its label set 3
labels; the run raises no error, prints a prediction for the query image and
exits with code 0. -/
theorem C12_counterexample :
    readIDXFile (some (zeroImageFile 5)) = .ok (zeroImages 5, [5, 28, 28]) ∧
    readLabelFile (some (labelFile [0, 0, 0, 0, 0, 0, 0])) = .ok [0, 0, 0, 0, 0, 0, 0] ∧
    readIDXFile (some (zeroImageFile 1)) = .ok (zeroImages 1, [1, 28, 28]) ∧
    readLabelFile (some (labelFile [0, 0, 0])) = .ok [0, 0, 0] ∧
    ∃ out, main id showExact (some (zeroImageFile 5)) (some (zeroImageFile 1))
        (some (labelFile [0, 0, 0, 0, 0, 0, 0])) (some (labelFile [0, 0, 0])) = some out ∧
      out.exit_code = 0 ∧ out.stderr = [] ∧
      ∃ label, out.stdout.get? 0 = some (classifiedLine 0 label) := by
  obtain ⟨out, h, e₁, e₂, _, e₄⟩ := main_example 5 1 [0, 0, 0, 0, 0, 0, 0] [0, 0, 0]
    (le_refl _) (by norm_num) (by norm_num) (by decide) (by decide) (by decide) (by decide)
    (by decide)
  exact ⟨readIDXFile_zeroImageFile 5 (by norm_num),
    readLabelFile_labelFile _ (by decide) (by decide),
    readIDXFile_zeroImageFile 1 (by norm_num),
    readLabelFile_labelFile _ (by decide) (by decide), out, h, e₁, e₂, e₄ 0 (by decide)⟩

/-- C13, at the failing input: three reference images (two all-zero, one
all-255) with labels `[0, 0, 1]` and one all-zero query image. The scan yields a
vector of 3 pairs; the tally loop, with `k = 5` unclamped, reads `distances[3]`
beyond its end, so neither the prediction nor the classification loop has a
defined result, whatever the iteration order of the tally. -/
theorem C13_small_reference_set_reads_out_of_range :
    (∃ distances : List (Int × Int),
      distancesLoop (constantImage 0 ++ constantImage 0 ++ constantImage 255)
        (constantImage 0) 0 3 0 [] = some distances ∧
      (std_sort distances).length = 3 ∧ pairAt (std_sort distances) 3 = none) ∧
    (∀ order : List (Byte × Int) → List (Byte × Int),
      classify order (constantImage 0 ++ constantImage 0 ++ constantImage 255)
        (constantImage 0) [0, 0, 1] 3 0 = none) ∧
    (∀ order : List (Byte × Int) → List (Byte × Int),
      classificationLoop order (constantImage 0 ++ constantImage 0 ++ constantImage 255)
        (constantImage 0) [0, 0, 1] [0] 3 1 0 { stdout := [], correct_predictions := 0 } =
        none) := by
  have hlen : 3 * 784 ≤
      (constantImage 0 ++ constantImage 0 ++ constantImage 255).length := by
    rw [List.length_append, List.length_append, length_constantImage 0,
      length_constantImage 255]
  have hq : 0 * 784 + 784 ≤ (constantImage 0).length := by rw [length_constantImage]
  have hc : ∀ order : List (Byte × Int) → List (Byte × Int),
      classify order (constantImage 0 ++ constantImage 0 ++ constantImage 255)
        (constantImage 0) [0, 0, 1] 3 0 = none := by
    intro order
    have h := classify_few order (constantImage 0 ++ constantImage 0 ++ constantImage 255)
      (constantImage 0) [0, 0, 1] 3 0 (by decide) hlen hq (by norm_num)
    simpa using h
  have hd : distancesLoop (constantImage 0 ++ constantImage 0 ++ constantImage 255)
      (constantImage 0) 0 3 0 [] = some (distancePairs (constantImage 0 ++ constantImage 0 ++
        constantImage 255) (constantImage 0) 0 0 3) := by
    have h := distancesLoop_eq (constantImage 0 ++ constantImage 0 ++ constantImage 255)
      (constantImage 0) 0 hq (by norm_num) 3 0 [] (by omega) (by norm_num)
    simpa using h
  have hp : pairAt (std_sort (distancePairs (constantImage 0 ++ constantImage 0 ++
      constantImage 255) (constantImage 0) 0 0 3)) 3 = none := by
    have h := pairAt_natCast (std_sort (distancePairs (constantImage 0 ++ constantImage 0 ++
      constantImage 255) (constantImage 0) 0 0 3)) 3
    rw [List.get?_eq_none.mpr (by rw [length_std_sort, length_distancePairs])] at h
    simpa using h
  refine ⟨⟨_, hd, by rw [length_std_sort, length_distancePairs], hp⟩, hc, fun order => ?_⟩
  rw [classificationLoop_succ]
  simp only [classificationStep, hc order, Option.none_bind]

/-- C15: driver output shape. For a run of `main` that completes over a query set
of `T` images, standard output consists of exactly `T + 1` lines: line `i`, for
`i = 0, ..., T-1`, is `Test Image Index: <i> classified as: <label>` with the
decimal value of the label predicted for query `i`, and the last line is
`Classification Accuracy: <percentage>%`; nothing goes to the diagnostic stream
and the exit code is 0. -/
theorem C15_driver_output_shape (order : List (Byte × Int) → List (Byte × Int))
    (showDouble : Option Rat → String)
    (train_images test_images train_label_file test_label_file : Option (List Byte))
    (train_data test_data train_labels test_labels : List Byte)
    (train_dimensions test_dimensions : List Int) (Ntrain : Int) (T : Nat) (out : Outcome)
    (h₁ : readIDXFile train_images = .ok (train_data, train_dimensions))
    (h₂ : readIDXFile test_images = .ok (test_data, test_dimensions))
    (h₃ : readLabelFile train_label_file = .ok train_labels)
    (h₄ : readLabelFile test_label_file = .ok test_labels)
    (hN : train_dimensions.get? 0 = some Ntrain)
    (hT : test_dimensions.get? 0 = some (T : Int))
    (hrun : main order showDouble train_images test_images train_label_file test_label_file =
      some out) :
    out.exit_code = 0 ∧ out.stderr = [] ∧ out.stdout.length = T + 1 ∧
    (∀ i : Nat, i < T → ∃ label : Byte,
      classify order train_data test_data train_labels Ntrain (i : Int) = some label ∧
      out.stdout.get? i = some ("Test Image Index: " ++ toString (i : Int) ++
        " classified as: " ++ toString label.val)) ∧
    ∃ percentage : Option Rat,
      out.stdout.get? T = some ("Classification Accuracy: " ++ showDouble percentage ++ "%") := by
  obtain ⟨e₁, e₂, e₃, e₄, e₅⟩ := main_spec order showDouble h₁ h₂ h₃ h₄ hN hT hrun
  simp only [Int.toNat_ofNat] at e₃ e₄ e₅
  exact ⟨e₁, e₂, e₃, e₄, _, e₅⟩

/-- C15, witness: five all-zero reference images and two all-zero query images. -/
theorem C15_witness :
    ∃ out, main id showExact (some (zeroImageFile 5)) (some (zeroImageFile 2))
        (some (labelFile [0, 0, 0, 0, 0])) (some (labelFile [0, 0])) = some out ∧
      out.exit_code = 0 ∧ out.stderr = [] ∧ out.stdout.length = 2 + 1 := by
  obtain ⟨out, h, _⟩ := main_example 5 2 [0, 0, 0, 0, 0] [0, 0] (le_refl _) (by norm_num)
    (by norm_num) (by decide) (by decide) (by decide) (by decide) (by decide)
  obtain ⟨e₁, e₂, e₃, _⟩ := C15_driver_output_shape id showExact _ _ _ _ (zeroImages 5)
    (zeroImages 2) [0, 0, 0, 0, 0] [0, 0] [((5 : Nat) : Int), 28, 28]
    [((2 : Nat) : Int), 28, 28] ((5 : Nat) : Int) 2 out
    (readIDXFile_zeroImageFile 5 (by norm_num)) (readIDXFile_zeroImageFile 2 (by norm_num))
    (readLabelFile_labelFile _ (by decide) (by decide))
    (readLabelFile_labelFile _ (by decide) (by decide)) rfl rfl h
  exact ⟨out, h, e₁, e₂, e₃⟩

/-- C18: safety of the classification loop. If `train_data` holds `Ntrain ≥ 5`
images and `test_data` holds `Ntest` images, `train_labels` has at least
`Ntrain` and `test_labels` at least `Ntest` entries, and `Ntrain*784` and
`Ntest*784` fit in a 32-bit signed `int`, then the loop over all `Ntest` query
images runs to its end: no pixel read, no `distances[i]`, no
`train_labels[distances[i].second]` and no `test_labels[test_index]` is out of
bounds (and no `int` operation overflows), whatever the iteration order of the
tally. -/
theorem C18_classification_loop_safe (order : List (Byte × Int) → List (Byte × Int))
    (train_data test_data train_labels test_labels : List Byte) (Ntrain Ntest : Nat)
    (hNd : Ntrain * 784 ≤ train_data.length) (hTd : Ntest * 784 ≤ test_data.length)
    (hL : Ntrain ≤ train_labels.length) (hTL : Ntest ≤ test_labels.length)
    (hk : 5 ≤ Ntrain)
    (hN' : Ntrain * 784 ≤ 2147483647) (hT' : Ntest * 784 ≤ 2147483647) :
    ∃ final : Progress,
      classificationLoop order train_data test_data train_labels test_labels (Ntrain : Int)
        Ntest 0 { stdout := [], correct_predictions := 0 } = some final := by
  have h := classificationLoop_total order train_data test_data train_labels test_labels
    Ntrain Ntest hk hNd hN' hL hTd hT' hTL Ntest 0 { stdout := [], correct_predictions := 0 }
    (by omega)
  simpa using h

/-- C18, witness: five all-zero reference images, two all-zero query images. -/
theorem C18_witness :
    5 * 784 ≤ (zeroImages 5).length ∧ 2 * 784 ≤ (zeroImages 2).length ∧
    5 ≤ ([0, 0, 0, 0, 0] : List Byte).length ∧ 2 ≤ ([0, 0] : List Byte).length ∧
    ∃ final : Progress,
      classificationLoop id (zeroImages 5) (zeroImages 2) [0, 0, 0, 0, 0] [0, 0]
        ((5 : Nat) : Int) 2 0 { stdout := [], correct_predictions := 0 } = some final :=
  ⟨by rw [length_zeroImages], by rw [length_zeroImages], by decide, by decide,
    C18_classification_loop_safe id (zeroImages 5) (zeroImages 2) [0, 0, 0, 0, 0] [0, 0] 5 2
      (by rw [length_zeroImages]) (by rw [length_zeroImages]) (by decide) (by decide)
      (le_refl _) (by norm_num) (by norm_num)⟩

/-- C20: counter invariant. In a classification loop that runs to its end over
`T` query images, after each number `m ≤ T` of iterations
`0 ≤ correct_predictions ≤ m`; iteration `m` increases the counter by exactly 1
when the prediction for query `m` equals `test_labels[m]` and leaves it
unchanged otherwise; hence for `T > 0` the final ratio `correct_predictions / T`
lies in [0, 1] and the percentage in [0, 100]. -/
theorem C20_counter_invariant (order : List (Byte × Int) → List (Byte × Int))
    (train_data test_data train_labels test_labels : List Byte) (Ntrain : Int) (T : Nat)
    (final : Progress)
    (hrun : classificationLoop order train_data test_data train_labels test_labels Ntrain T 0
      { stdout := [], correct_predictions := 0 } = some final) :
    (∀ m : Nat, m ≤ T →
      ∃ s, classificationLoop order train_data test_data train_labels test_labels Ntrain m 0
          { stdout := [], correct_predictions := 0 } = some s ∧
        0 ≤ s.correct_predictions ∧ s.correct_predictions ≤ (m : Int) ∧
        (m < T → ∃ predicted truth s',
          classify order train_data test_data train_labels Ntrain (m : Int) = some predicted ∧
          readAt test_labels (m : Int) = some truth ∧
          classificationLoop order train_data test_data train_labels test_labels Ntrain
            (m + 1) 0 { stdout := [], correct_predictions := 0 } = some s' ∧
          s'.correct_predictions =
            if predicted = truth then s.correct_predictions + 1
            else s.correct_predictions)) ∧
    (0 < T →
      0 ≤ (final.correct_predictions : Rat) / (T : Rat) ∧
      (final.correct_predictions : Rat) / (T : Rat) ≤ 1 ∧
      ∃ percentage : Rat,
        accuracyPercent final.correct_predictions (T : Int) = some percentage ∧
        0 ≤ percentage ∧ percentage ≤ 100) := by
  refine ⟨fun m hm => classificationLoop_prefix order train_data test_data train_labels
    test_labels Ntrain T final hrun m hm, fun hpos => ?_⟩
  obtain ⟨s, hs, h₀, h₁, _⟩ := classificationLoop_prefix order train_data test_data
    train_labels test_labels Ntrain T final hrun T (le_refl _)
  rw [hrun, Option.some.injEq] at hs
  subst hs
  have hT : (0 : Rat) < (T : Rat) := by exact_mod_cast hpos
  have hc₀ : (0 : Rat) ≤ (final.correct_predictions : Rat) := by exact_mod_cast h₀
  have hc₁ : (final.correct_predictions : Rat) ≤ (T : Rat) := by exact_mod_cast h₁
  have hr₀ : 0 ≤ (final.correct_predictions : Rat) / (T : Rat) := div_nonneg hc₀ hT.le
  have hr₁ : (final.correct_predictions : Rat) / (T : Rat) ≤ 1 := (div_le_one hT).mpr hc₁
  refine ⟨hr₀, hr₁, (final.correct_predictions : Rat) / (T : Rat) * 100, ?_, ?_, ?_⟩
  · have hne : ((T : Nat) : Int) ≠ 0 := by exact_mod_cast (by omega : T ≠ 0)
    simp [accuracyPercent, hne]
  · positivity
  · nlinarith

/-- C20, witness: the loop over two all-zero query images against five all-zero
reference images. -/
theorem C20_witness :
    ∃ final : Progress,
      classificationLoop id (zeroImages 5) (zeroImages 2) [0, 0, 0, 0, 0] [0, 0]
        ((5 : Nat) : Int) 2 0 { stdout := [], correct_predictions := 0 } = some final ∧
      0 ≤ (final.correct_predictions : Rat) / ((2 : Nat) : Rat) ∧
      (final.correct_predictions : Rat) / ((2 : Nat) : Rat) ≤ 1 := by
  obtain ⟨final, h⟩ := classificationLoop_total id (zeroImages 5) (zeroImages 2)
    [0, 0, 0, 0, 0] [0, 0] 5 2 (le_refl _) (by rw [length_zeroImages]) (by norm_num)
    (by decide) (by rw [length_zeroImages]) (by norm_num) (by decide) 2 0
    { stdout := [], correct_predictions := 0 } (by decide)
  have h' : classificationLoop id (zeroImages 5) (zeroImages 2) [0, 0, 0, 0, 0] [0, 0]
      ((5 : Nat) : Int) 2 0 { stdout := [], correct_predictions := 0 } = some final := h
  obtain ⟨r₀, r₁, _⟩ := (C20_counter_invariant id (zeroImages 5) (zeroImages 2)
    [0, 0, 0, 0, 0] [0, 0] ((5 : Nat) : Int) 2 final h').2 (by decide)
  exact ⟨final, h', r₀, r₁⟩

/-! ## Identity of indiscernibles -/

theorem getD_image (A : List Byte) (o k : Nat) (hk : k < 784) :
    ((A.drop o).take 784).getD k 0 = A.getD (o + k) 0 := by
  simp only [List.getD_eq_getElem?_getD, List.getElem?_take_of_lt hk, List.getElem?_drop]

theorem length_image (A : List Byte) (o : Nat) (h : o + 784 ≤ A.length) :
    ((A.drop o).take 784).length = 784 := by
  rw [List.length_take, List.length_drop]
  omega

/-- Two in-range images are equal exactly when they agree pixel by pixel. -/
theorem image_eq_iff (A B : List Byte) (o o' : Nat) (hA : o + 784 ≤ A.length)
    (hB : o' + 784 ≤ B.length) :
    (A.drop o).take 784 = (B.drop o').take 784 ↔
      ∀ k, k < 784 → A.getD (o + k) 0 = B.getD (o' + k) 0 := by
  constructor
  · intro h k hk
    rw [← getD_image A o k hk, ← getD_image B o' k hk, h]
  · intro h
    apply List.ext_getElem
    · rw [length_image A o hA, length_image B o' hB]
    · intro k h₁ h₂
      have hk : k < 784 := by rw [length_image A o hA] at h₁; exact h₁
      rw [← List.getD_eq_getElem _ 0 h₁, ← List.getD_eq_getElem _ 0 h₂, getD_image A o k hk,
        getD_image B o' k hk]
      exact h k hk

theorem sumSq_eq_zero_iff (A B : List Byte) (o o' n : Nat) :
    sumSq A B o o' n = 0 ↔ ∀ k, k < n → A.getD (o + k) 0 = B.getD (o' + k) 0 := by
  unfold sumSq
  rw [Finset.sum_eq_zero_iff_of_nonneg (fun k _ => sq_nonneg _)]
  constructor
  · intro h k hk
    have := h k (Finset.mem_range.mpr hk)
    rw [sq_eq_zero_iff, sub_eq_zero] at this
    simp only [pixel] at this
    exact Fin.ext (by exact_mod_cast this)
  · intro h k hk
    rw [sq_eq_zero_iff, sub_eq_zero]
    simp only [pixel]
    rw [h k (Finset.mem_range.mp hk)]

/-- C19: identity of indiscernibles. For valid indices (both images inside their
buffers, at offsets representable as `int`), `pairwise_distance A B i j` is 0 if
and only if the 784-byte image of `A` at offset `i*784` is byte for byte the
784-byte image of `B` at offset `j*784`. -/
theorem C19_identity_of_indiscernibles (A B : List Byte) (i j : Nat)
    (hA : i * 784 + 784 ≤ A.length) (hA' : i * 784 + 784 ≤ 2147483648)
    (hB : j * 784 + 784 ≤ B.length) (hB' : j * 784 + 784 ≤ 2147483648) :
    pairwise_distance A B (i : Int) (j : Int) = some 0 ↔
      (A.drop (i * 784)).take 784 = (B.drop (j * 784)).take 784 := by
  rw [pairwise_distance_eq A B i j hA hA' hB hB', Option.some.injEq, sumSq_eq_zero_iff,
    image_eq_iff A B _ _ hA hB]

/-- C19, witness: two buffers that hold the same single image. -/
theorem C19_witness :
    0 * 784 + 784 ≤ (constantImage 9).length ∧
    (pairwise_distance (constantImage 9) (constantImage 9) ((0 : Nat) : Int) ((0 : Nat) : Int) =
        some 0 ↔
      ((constantImage 9).drop (0 * 784)).take 784 =
        ((constantImage 9).drop (0 * 784)).take 784) :=
  ⟨by rw [length_constantImage],
    C19_identity_of_indiscernibles (constantImage 9) (constantImage 9) 0 0
      (by rw [length_constantImage]) (by norm_num) (by rw [length_constantImage])
      (by norm_num)⟩

/-- C19, counterexample to the claim as stated: in a buffer of 2147484976
all-zero bytes the image at index 2739138 is in range and equal to itself, yet
the offset 2739138*784 = 2147484192 is not an `int`, so the distance of the
image to itself is undefined, not 0. -/
theorem C19_counterexample :
    2739138 * 784 + 784 ≤ (List.replicate 2147484976 (0 : Byte)).length ∧
    ((List.replicate 2147484976 (0 : Byte)).drop (2739138 * 784)).take 784 =
      ((List.replicate 2147484976 (0 : Byte)).drop (2739138 * 784)).take 784 ∧
    pairwise_distance (List.replicate 2147484976 0) (List.replicate 2147484976 0)
      ((2739138 : Nat) : Int) ((2739138 : Nat) : Int) = none ∧
    pairwise_distance (List.replicate 2147484976 0) (List.replicate 2147484976 0)
      ((2739138 : Nat) : Int) ((2739138 : Nat) : Int) ≠ some 0 := by
  have h := pairwise_distance_overflow (List.replicate 2147484976 0)
    (List.replicate 2147484976 0) 2739138 ((2739138 : Nat) : Int) (by norm_num)
  refine ⟨le_length_replicate _ (by norm_num), rfl, h, ?_⟩
  rw [h]
  exact fun e => Option.noConfusion e

/-! ## Image renderer -/

/-- The inner loop of `printImage` on in-range, representable positions: it
appends one glyph per pixel of the row. -/
theorem renderRow_eq (data : List Byte) (o r : Nat) :
    ∀ (n j : Nat) (row : List Char),
      o + r * 28 + j + n ≤ data.length → o + r * 28 + j + n ≤ 2147483647 →
      renderRow data (o : Int) (r : Int) n (j : Int) row =
        some (row ++ (List.range' j n).map fun c =>
          if (data.getD (o + r * 28 + c) 0).val > 128 then '#' else '.') := by
  intro n
  induction n with
  | zero => intro j row _ _; simp [renderRow]
  | succ n ih =>
    intro j row h h'
    have e₁ : int32 ((r : Int) * 28) = some (((r * 28 : Nat)) : Int) := by
      rw [int32_eq_some (by omega) (by omega)]; push_cast; rfl
    have e₂ : int32 ((o : Int) + ((r * 28 : Nat) : Int)) = some (((o + r * 28 : Nat)) : Int) := by
      rw [int32_eq_some (by omega) (by omega)]; push_cast; rfl
    have e₃ : int32 (((o + r * 28 : Nat) : Int) + (j : Int)) =
        some (((o + r * 28 + j : Nat)) : Int) := by
      rw [int32_eq_some (by omega) (by omega)]; push_cast; rfl
    have ej : ((j : Int) + 1) = ((j + 1 : Nat) : Int) := by push_cast; rfl
    rw [renderRow, e₁, Option.some_bind, e₂, Option.some_bind, e₃, Option.some_bind,
      readAt_natCast (by omega), Option.some_bind, ej, ih (j + 1) _ (by omega) (by omega),
      List.range'_succ, List.map_cons, List.append_assoc]
    rfl

theorem renderRows_eq (data : List Byte) (o : Nat) :
    ∀ (n i : Nat) (rows : List String),
      o + (i + n) * 28 ≤ data.length → o + (i + n) * 28 ≤ 2147483647 →
      renderRows data (o : Int) n (i : Int) rows =
        some (rows ++ (List.range' i n).map fun r =>
          String.mk ((List.range 28).map fun c =>
            if (data.getD (o + r * 28 + c) 0).val > 128 then '#' else '.')) := by
  intro n
  induction n with
  | zero => intro i rows _ _; simp [renderRows]
  | succ n ih =>
    intro i rows h h'
    have hrow := renderRow_eq data o i 28 0 [] (by omega) (by omega)
    simp only [Nat.cast_zero, List.nil_append] at hrow
    have ei : ((i : Int) + 1) = ((i + 1 : Nat) : Int) := by push_cast; rfl
    rw [renderRows, hrow, Option.some_bind, ei, ih (i + 1) _ (by omega) (by omega),
      List.range'_succ, List.map_cons, List.append_assoc, List.range_eq_range']
    rfl

theorem sizeT_natCast (n : Nat) (h : n < 18446744073709551616) : sizeT (n : Int) = n := by
  unfold sizeT
  rw [Int.emod_eq_of_lt (by omega) (by omega)]
  rfl

/-- The rendering of an in-range image at a representable offset. -/
theorem printImage_eq (data : List Byte) (N : Int) (index : Nat)
    (h : index * 784 + 784 ≤ data.length) (h' : index * 784 + 784 ≤ 2147483647) :
    printImage data [N, 28, 28] (index : Int) =
      some { stdout := (List.range 28).map fun r =>
               String.mk ((List.range 28).map fun c =>
                 if (data.getD (index * 784 + r * 28 + c) 0).val > 128 then '#' else '.'),
             stderr := [] } := by
  have hdim : ([N, 28, 28] : List Int).length = 3 ∧ ([N, 28, 28] : List Int).get? 1 = some 28 ∧
      ([N, 28, 28] : List Int).get? 2 = some 28 := ⟨rfl, rfl, rfl⟩
  have e₁ : int32 ((index : Int) * (28 * 28)) = some (((index * 784 : Nat)) : Int) := by
    rw [int32_eq_some (by omega) (by omega)]; push_cast; rfl
  have e₂ : int32 (((index * 784 : Nat) : Int) + 28 * 28) =
      some (((index * 784 + 784 : Nat)) : Int) := by
    rw [int32_eq_some (by omega) (by omega)]; push_cast; rfl
  have hrows := renderRows_eq data (index * 784) 28 0 [] (by omega) (by omega)
  simp only [Nat.cast_zero, List.nil_append] at hrows
  have hnot : ¬ (index * 784 + 784 > data.length) := by omega
  simp only [printImage]
  rw [if_pos hdim, e₁, Option.some_bind, e₂, Option.some_bind, sizeT_natCast _ (by omega),
    if_neg hnot, hrows, Option.map_some', List.range_eq_range']

theorem renderRows_of_negative_offset (data : List Byte) :
    renderRows data (-784) 28 0 [] = none := by
  have hrow : renderRow data (-784) 0 (27 + 1) 0 [] = none := by
    rw [renderRow]
    simp [int32, readAt]
  have e : (28 : Nat) = 27 + 1 := rfl
  rw [e, renderRows]
  rw [hrow, Option.none_bind]

/-- The call of `printImage` with index -1 passes the bounds check (the sum
`offset + imageSize` is 0) and then reads `data[-784]`. -/
theorem printImage_minus_one (data : List Byte) (N : Int) :
    printImage data [N, 28, 28] (-1) = none := by
  have hdim : ([N, 28, 28] : List Int).length = 3 ∧ ([N, 28, 28] : List Int).get? 1 = some 28 ∧
      ([N, 28, 28] : List Int).get? 2 = some 28 := ⟨rfl, rfl, rfl⟩
  have e₁ : int32 ((-1 : Int) * (28 * 28)) = some (-784) := by decide
  have e₂ : int32 ((-784 : Int) + 28 * 28) = some 0 := by decide
  have e₃ : sizeT 0 = 0 := by decide
  simp only [printImage]
  rw [if_pos hdim, e₁, Option.some_bind, e₂, Option.some_bind, e₃,
    if_neg (Nat.not_lt_zero _), renderRows_of_negative_offset, Option.map_none']

/-- With dimensions other than `[N, 28, 28]`, `printImage` reports them and
renders nothing. -/
theorem printImage_unexpected_dimensions (data : List Byte) (dimensions : List Int)
    (index : Int)
    (h : ¬ (dimensions.length = 3 ∧ dimensions.get? 1 = some 28 ∧
      dimensions.get? 2 = some 28)) :
    ∃ message, printImage data dimensions index =
      some { stdout := [], stderr := [message] } := by
  simp only [printImage]
  rw [if_neg h]
  exact ⟨_, rfl⟩

/-- An index below -1, or a non-negative index whose image ends beyond the
buffer, is reported as out of bounds (offsets representable as `int`). -/
theorem printImage_index_out_of_bounds (data : List Byte) (N index : Int)
    (hlo : -2739137 ≤ index) (hhi : index ≤ 2739136)
    (hlen : data.length < 9223372036854775808)
    (h : index ≤ -2 ∨ (data.length : Int) < index * 784 + 784) :
    printImage data [N, 28, 28] index =
      some { stdout := [], stderr := ["Index out of bounds"] } := by
  have hdim : ([N, 28, 28] : List Int).length = 3 ∧ ([N, 28, 28] : List Int).get? 1 = some 28 ∧
      ([N, 28, 28] : List Int).get? 2 = some 28 := ⟨rfl, rfl, rfl⟩
  have e₁ : int32 (index * (28 * 28)) = some (index * 784) := by
    rw [int32_eq_some (by omega) (by omega)]; congr 1
  have e₂ : int32 (index * 784 + 28 * 28) = some (index * 784 + 784) := by
    rw [int32_eq_some (by omega) (by omega)]; congr 1
  have hgt : sizeT (index * 784 + 784) > data.length := by
    unfold sizeT
    rcases h with h | h
    · rw [← Int.add_emod_self, Int.emod_eq_of_lt (by omega) (by omega)]
      omega
    · rw [Int.emod_eq_of_lt (by omega) (by omega)]
      omega
  simp only [printImage]
  rw [if_pos hdim, e₁, Option.some_bind, e₂, Option.some_bind, if_pos hgt]

/-- C16, at the failing input: a one-image tensor with dimensions `[1, 28, 28]`
and index -1. Indices -2 and 1 are reported as out of bounds and nothing is
rendered; for index -1 the check `offset + imageSize > data.size()` compares
0 with the size and passes, and the first pixel read is `data[-784]`, outside
the buffer: the call has no defined result instead of a report. -/
theorem C16_renderer_index_minus_one :
    printImage (constantImage 200) [1, 28, 28] (-2) =
      some { stdout := [], stderr := ["Index out of bounds"] } ∧
    printImage (constantImage 200) [1, 28, 28] 1 =
      some { stdout := [], stderr := ["Index out of bounds"] } ∧
    int32 ((-1 : Int) * (28 * 28) + 28 * 28) = some 0 ∧
    ¬ (sizeT 0 > (constantImage 200).length) ∧
    readAt (constantImage 200) (-784) = none ∧
    printImage (constantImage 200) [1, 28, 28] (-1) = none := by
  have hlen : (constantImage 200).length = 784 := length_constantImage 200
  refine ⟨?_, ?_, by decide, ?_, by simp [readAt], printImage_minus_one _ 1⟩
  · exact printImage_index_out_of_bounds _ 1 (-2) (by norm_num) (by norm_num)
      (by rw [hlen]; norm_num) (Or.inl (le_refl _))
  · exact printImage_index_out_of_bounds _ 1 1 (by norm_num) (by norm_num)
      (by rw [hlen]; norm_num) (Or.inr (by rw [hlen]; norm_num))
  · rw [hlen]; decide

/-- C17 (as amended): renderer output. For a tensor with dimensions
`[N, 28, 28]` and an index with `index*784 + 784 ≤ length data` and
`index*784 + 784 ≤ 2^31 - 1`, `printImage` writes exactly 28 rows of exactly 28
characters and nothing to the diagnostic stream; the character at row `r`,
column `c` is `#` if `data[index*784 + r*28 + c] > 128` and `.` otherwise. -/
theorem C17_renderer_output (data : List Byte) (N : Int) (index : Nat)
    (h : index * 784 + 784 ≤ data.length) (hfit : index * 784 + 784 ≤ 2147483647) :
    ∃ rows : List String,
      printImage data [N, 28, 28] (index : Int) = some { stdout := rows, stderr := [] } ∧
      rows.length = 28 ∧
      ∀ r : Nat, r < 28 → ∃ row : String,
        rows.get? r = some row ∧ row.length = 28 ∧
        ∀ c : Nat, c < 28 → row.data.get? c =
          some (if (data.getD (index * 784 + r * 28 + c) 0).val > 128 then '#' else '.') := by
  refine ⟨_, printImage_eq data N index h hfit, by simp, fun r hr => ?_⟩
  refine ⟨String.mk ((List.range 28).map fun c =>
    if (data.getD (index * 784 + r * 28 + c) 0).val > 128 then '#' else '.'), ?_, ?_,
    fun c hc => ?_⟩
  · rw [List.get?_eq_getElem?, List.getElem?_map, List.getElem?_range hr]
    rfl
  · simp [String.length]
  · simp only [List.get?_eq_getElem?, List.getElem?_map, List.getElem?_range hc]
    rfl

/-- C17, witness: the single image of a one-image tensor. -/
theorem C17_witness :
    0 * 784 + 784 ≤ (constantImage 200).length ∧
    ∃ rows : List String,
      printImage (constantImage 200) [1, 28, 28] ((0 : Nat) : Int) =
        some { stdout := rows, stderr := [] } ∧
      rows.length = 28 := by
  have hlen : 0 * 784 + 784 ≤ (constantImage 200).length := by rw [length_constantImage]
  obtain ⟨rows, h₁, h₂, _⟩ := C17_renderer_output (constantImage 200) 1 0 hlen (by norm_num)
  exact ⟨hlen, rows, h₁, h₂⟩

/-- C17, counterexample to the claim as stated: in a tensor of 2739139 images
(2147484976 bytes) index 2739138 is in bounds, yet its offset
2739138*784 = 2147484192 is not an `int`, so the call renders nothing
defined. -/
theorem C17_counterexample :
    (0 : Int) ≤ ((2739138 : Nat) : Int) ∧
    2739138 * 784 + 784 ≤ (List.replicate 2147484976 (0 : Byte)).length ∧
    printImage (List.replicate 2147484976 0) [2739139, 28, 28] ((2739138 : Nat) : Int) =
      none := by
  have hdim : ([2739139, 28, 28] : List Int).length = 3 ∧
      ([2739139, 28, 28] : List Int).get? 1 = some 28 ∧
      ([2739139, 28, 28] : List Int).get? 2 = some 28 := ⟨rfl, rfl, rfl⟩
  refine ⟨by norm_num, le_length_replicate _ (by norm_num), ?_⟩
  simp only [printImage]
  rw [if_pos hdim, int32_eq_none (by norm_num)]
  exact Option.none_bind _

/-! ## The tally loop and the prediction, in closed form -/

/-- The tally loop folds `label_counts[label]++` over the pairs at positions
`i, ..., i + n - 1` of `distances`, looking each label up in `train_labels`. -/
theorem tallyLoop_eq_foldlM (train_labels : List Byte) (ds : List (Int × Int)) :
    ∀ (n i : Nat) (m : List (Byte × Int)), i + n ≤ ds.length →
      tallyLoop train_labels ds n (i : Int) m =
        ((ds.drop i).take n).foldlM
          (fun counts pair => (readAt train_labels pair.2).map (increment counts)) m := by
  intro n
  induction n with
  | zero => intro i m _; simp [tallyLoop]
  | succ n ih =>
    intro i m h
    have hi : i < ds.length := by omega
    have ei : ((i : Int) + 1) = ((i + 1 : Nat) : Int) := by push_cast; rfl
    rw [tallyLoop, pairAt_natCast, List.get?_eq_get hi, Option.some_bind,
      List.drop_eq_getElem_cons hi, List.take_succ_cons, List.foldlM_cons]
    rcases readAt train_labels (ds.get ⟨i, hi⟩).2 with _ | label
    · rfl
    · simp only [Option.some_bind, List.get_eq_getElem]
      rw [ei, ih (i + 1) _ (by omega)]
      rfl

/-- A completed tally loop has counted exactly the labels it looked up. -/
theorem tallyLoop_eq_some (train_labels : List Byte) (ds : List (Int × Int)) :
    ∀ (n i : Nat) (m lc : List (Byte × Int)),
      tallyLoop train_labels ds n (i : Int) m = some lc →
      ∃ labels : List Byte, labels.length = n ∧
        (∀ k : Nat, k < n → ∃ pair : Int × Int,
          pairAt ds ((i + k : Nat) : Int) = some pair ∧
          readAt train_labels pair.2 = labels.get? k) ∧
        lc = labels.foldl increment m := by
  intro n
  induction n with
  | zero =>
    intro i m lc h
    simp only [tallyLoop, Option.some.injEq] at h
    exact ⟨[], rfl, fun k hk => by omega, by simp [h]⟩
  | succ n ih =>
    intro i m lc h
    simp only [tallyLoop, Option.bind_eq_some] at h
    obtain ⟨pair, hp, label, hl, hrest⟩ := h
    have ei : ((i : Int) + 1) = ((i + 1 : Nat) : Int) := by push_cast; rfl
    rw [ei] at hrest
    obtain ⟨labels, hlen, hread, hlc⟩ := ih (i + 1) _ lc hrest
    refine ⟨label :: labels, by simp [hlen], ?_, by simpa using hlc⟩
    intro k hk
    cases k with
    | zero => exact ⟨pair, by simpa using hp, by simpa using hl⟩
    | succ k =>
      obtain ⟨pair', h₁, h₂⟩ := hread k (by omega)
      refine ⟨pair', ?_, by simpa using h₂⟩
      have e : i + 1 + k = i + (k + 1) := by omega
      rw [← e]
      exact h₁

/-- A defined prediction is the vote over the tally of the labels of the 5
nearest reference images. -/
theorem classify_eq_some {order : List (Byte × Int) → List (Byte × Int)}
    {train_data test_data train_labels : List Byte} {num_train_images test_index : Int}
    {predicted : Byte}
    (h : classify order train_data test_data train_labels num_train_images test_index =
      some predicted) :
    ∃ labels : List Byte,
      AreNeighbourLabels train_data test_data train_labels num_train_images test_index labels ∧
      predicted = vote (order (countLabels labels)) := by
  simp only [classify, Option.bind_eq_some] at h
  obtain ⟨scanned, hd, lc, ht, hv⟩ := h
  simp only [Option.some.injEq] at hv
  have ht' : tallyLoop train_labels (std_sort scanned) 5 ((0 : Nat) : Int) [] = some lc := ht
  obtain ⟨labels, hlen, hread, hlc⟩ := tallyLoop_eq_some train_labels _ 5 0 [] lc ht'
  refine ⟨labels, ⟨scanned, hd, hlen, fun i hi => ?_⟩, ?_⟩
  · obtain ⟨pair, h₁, h₂⟩ := hread i hi
    exact ⟨pair, by simpa using h₁, h₂⟩
  · rw [← hv, hlc]
    rfl

/-- Under the preconditions of the scan, the prediction is the vote over the
tally folded over the first 5 pairs of the sorted scan. -/
theorem classify_eq (order : List (Byte × Int) → List (Byte × Int))
    (train_data test_data train_labels : List Byte) (N q : Nat) (hk : 5 ≤ N)
    (hN : N * 784 ≤ train_data.length) (hN' : N * 784 ≤ 2147483648)
    (hq : q * 784 + 784 ≤ test_data.length) (hq' : q * 784 + 784 ≤ 2147483648) :
    classify order train_data test_data train_labels (N : Int) (q : Int) =
      (((std_sort (distancePairs train_data test_data q 0 N)).take 5).foldlM
        (fun counts pair => (readAt train_labels pair.2).map (increment counts)) []).map
        fun counts => vote (order counts) := by
  have hd := distancesLoop_eq train_data test_data q hq hq' N 0 [] (by omega) (by omega)
  simp only [List.nil_append, Nat.cast_zero] at hd
  have ht := tallyLoop_eq_foldlM train_labels
    (std_sort (distancePairs train_data test_data q 0 N)) 5 0 []
    (by rw [length_std_sort, length_distancePairs]; omega)
  simp only [Nat.cast_zero, List.drop_zero] at ht
  simp only [classify, Int.toNat_ofNat]
  rw [hd, Option.some_bind, ht]
  generalize List.foldlM (fun counts pair => Option.map (increment counts)
    (readAt train_labels pair.2)) []
    (List.take 5 (std_sort (distancePairs train_data test_data q 0 N))) = r
  cases r <;> rfl

/-! ## Buffers of constant images -/

theorem getD_constantImage (v : Byte) (k : Nat) (hk : k < 784) :
    (constantImage v).getD k 0 = v := by
  unfold constantImage
  rw [List.getD_eq_getElem?_getD, List.getElem?_replicate_of_lt hk]
  rfl

theorem length_constantImages (values : List Byte) :
    (constantImages values).length = values.length * 784 := by
  induction values with
  | nil => rfl
  | cons v values ih =>
    rw [constantImages, List.length_append, length_constantImage, ih, List.length_cons]
    omega

theorem getD_constantImages (values : List Byte) :
    ∀ (i k : Nat), i < values.length → k < 784 →
      (constantImages values).getD (i * 784 + k) 0 = values.getD i 0 := by
  induction values with
  | nil => intro i k hi _; simp at hi
  | cons v values ih =>
    intro i k hi hk
    cases i with
    | zero =>
      rw [constantImages, List.getD_append _ _ _ _ (by rw [length_constantImage]; omega)]
      simp only [Nat.zero_mul, Nat.zero_add]
      rw [getD_constantImage v k hk]
      rfl
    | succ i =>
      have hi' : i < values.length := by simpa using hi
      rw [constantImages, List.getD_append_right _ _ _ _ (by rw [length_constantImage]; omega),
        length_constantImage]
      have e : (i + 1) * 784 + k - 784 = i * 784 + k := by omega
      rw [e, ih i k hi' hk]
      simp

/-- The distance of two constant images is 784 times the squared difference of
their values. -/
theorem sumSq_constantImages (values queries : List Byte) (i j : Nat)
    (hi : i < values.length) (hj : j < queries.length) :
    sumSq (constantImages values) (constantImages queries) (i * 784) (j * 784) 784 =
      784 * (((values.getD i 0).val : Int) - ((queries.getD j 0).val : Int)) ^ 2 := by
  unfold sumSq
  rw [Finset.sum_congr rfl (g := fun _ =>
    (((values.getD i 0).val : Int) - ((queries.getD j 0).val : Int)) ^ 2)]
  · rw [Finset.sum_const, Finset.card_range]
    simp
  · intro k hk
    have hk' : k < 784 := Finset.mem_range.mp hk
    simp only [pixel]
    rw [getD_constantImages values i k hi hk', getD_constantImages queries j k hj hk']

/-- The scan of a buffer of constant images against a constant query image. -/
theorem distancePairs_constantImages (values queries : List Byte) (q : Nat)
    (hq : q < queries.length) :
    distancePairs (constantImages values) (constantImages queries) q 0 values.length =
      (List.range values.length).map fun i =>
        (784 * (((values.getD i 0).val : Int) - ((queries.getD q 0).val : Int)) ^ 2,
          (i : Int)) := by
  unfold distancePairs
  rw [List.range_eq_range']
  apply List.map_congr_left
  intro i hi
  have hi' : i < values.length := by
    have := (List.mem_range'_1.mp hi).2
    omega
  rw [sumSq_constantImages values queries i q hi' hq]

/-- The prediction for a constant query image against a buffer of at least 5
constant reference images, computed from the values of the images. -/
theorem classify_constantImages (order : List (Byte × Int) → List (Byte × Int))
    (values queries train_labels : List Byte) (q : Nat)
    (hk : 5 ≤ values.length) (hN : values.length ≤ 1000) (hq : q < queries.length)
    (hQ : queries.length ≤ 1000) :
    classify order (constantImages values) (constantImages queries) train_labels
        (values.length : Int) (q : Int) =
      (((std_sort ((List.range values.length).map fun i =>
          (784 * (((values.getD i 0).val : Int) - ((queries.getD q 0).val : Int)) ^ 2,
            (i : Int)))).take 5).foldlM
        (fun counts pair => (readAt train_labels pair.2).map (increment counts)) []).map
        fun counts => vote (order counts) := by
  rw [classify_eq order _ _ train_labels values.length q hk
    (by rw [length_constantImages]) (by omega)
    (by rw [length_constantImages]; omega) (by omega),
    distancePairs_constantImages values queries q hq]

/-! ## Neighbour selection: the specification's property -/

/-- The scan has no defined result when the distance to one of the reference
images it visits has none. -/
theorem distancesLoop_none (train_data test_data : List Byte) (test_index : Int) (i : Nat)
    (hi : pairwise_distance train_data test_data (i : Int) test_index = none) :
    ∀ (n t : Nat) (acc : List (Int × Int)), t ≤ i → i < t + n →
      distancesLoop train_data test_data test_index n (t : Int) acc = none := by
  intro n
  induction n with
  | zero => intro t acc h₁ h₂; omega
  | succ n ih =>
    intro t acc h₁ h₂
    rw [distancesLoop]
    rcases hd : pairwise_distance train_data test_data (t : Int) test_index with _ | d
    · exact Option.none_bind _
    · have hne : t ≠ i := by
        intro e
        rw [e, hi] at hd
        cases hd
      have et : ((t : Int) + 1) = ((t + 1 : Nat) : Int) := by push_cast; rfl
      rw [Option.some_bind, et]
      exact ih (t + 1) _ (by omega) (by omega)

/-- C5 (as amended): k-selection correctness. For a reference set of `N ≥ 5`
images inside `train_data` and a query image inside `test_data`, all at offsets
representable as `int` (`N*784 ≤ 2^31`, `q*784+784 ≤ 2^31`), the scan over the
reference images terminates and the sorted vector is a brute-force full ranking
(each index `0..N-1` once with its `pairwise_distance`, ascending by distance,
ties by lowest index). For every such ranking, the pairs `distances[0..4]` that
the vote loop reads are exactly its first 5 entries: the tally loop is the fold
of `label_counts[label]++` over those 5 entries, and the prediction is the vote
over that tally. -/
theorem C5_k_selection_correct (order : List (Byte × Int) → List (Byte × Int))
    (train_data test_data train_labels : List Byte) (N q : Nat) (hk : 5 ≤ N)
    (hN : N * 784 ≤ train_data.length) (hN' : N * 784 ≤ 2147483648)
    (hq : q * 784 + 784 ≤ test_data.length) (hq' : q * 784 + 784 ≤ 2147483648) :
    ∃ distances : List (Int × Int),
      distancesLoop train_data test_data (q : Int) N 0 [] = some distances ∧
      IsBruteForceRanking train_data test_data (q : Int) N (std_sort distances) ∧
      ∀ ranking : List (Int × Int),
        IsBruteForceRanking train_data test_data (q : Int) N ranking →
        (std_sort distances).take 5 = ranking.take 5 ∧
        (ranking.take 5).length = 5 ∧
        (∀ i : Nat, i < 5 → ∃ entry : Int × Int,
          pairAt (std_sort distances) (i : Int) = some entry ∧
          (ranking.take 5).get? i = some entry) ∧
        tallyLoop train_labels (std_sort distances) 5 0 [] =
          (ranking.take 5).foldlM
            (fun counts pair => (readAt train_labels pair.2).map (increment counts)) [] ∧
        classify order train_data test_data train_labels (N : Int) (q : Int) =
          ((ranking.take 5).foldlM
            (fun counts pair => (readAt train_labels pair.2).map (increment counts)) []).map
            fun counts => vote (order counts) := by
  refine ⟨distancePairs train_data test_data q 0 N, ?_, ?_, ?_⟩
  · have h := distancesLoop_eq train_data test_data q hq hq' N 0 [] (by omega) (by omega)
    simpa using h
  · exact std_sort_isBruteForceRanking train_data test_data q N hN hN' hq hq'
  · intro ranking hr
    obtain ⟨heq, hlen⟩ := std_sort_eq_ranking train_data test_data N q hN hN' hq hq' ranking hr
    have hc := classify_eq order train_data test_data train_labels N q hk hN hN' hq hq'
    have ht := tallyLoop_eq_foldlM train_labels
      (std_sort (distancePairs train_data test_data q 0 N)) 5 0 []
      (by rw [length_std_sort, length_distancePairs]; omega)
    simp only [Nat.cast_zero, List.drop_zero] at ht
    rw [heq] at hc ht
    rw [heq]
    refine ⟨rfl, by rw [List.length_take]; omega, fun i hi => ?_, ht, hc⟩
    have hi' : i < ranking.length := by omega
    refine ⟨ranking.get ⟨i, hi'⟩, ?_, ?_⟩
    · simp [pairAt, List.getElem?_eq_getElem hi']
    · simp [List.getElem?_take, hi, List.getElem?_eq_getElem hi']

/-- C5, witness: six constant reference images of values 9, 3, 0, 3, 7, 1 with
labels 5, 4, 4, 6, 4, 6 and the all-zero query image. The five nearest are the
images 2, 5, 1, 3, 4 (images 1 and 3 tie, the lower index first); image 0 is
left out; the prediction is the label 4. -/
theorem C5_witness :
    5 ≤ 6 ∧ 6 * 784 ≤ (constantImages [9, 3, 0, 3, 7, 1]).length ∧
    0 * 784 + 784 ≤ (constantImages [0]).length ∧
    ∃ distances : List (Int × Int),
      distancesLoop (constantImages [9, 3, 0, 3, 7, 1]) (constantImages [0]) ((0 : Nat) : Int)
        6 0 [] = some distances ∧
      distances = [(63504, 0), (7056, 1), (0, 2), (7056, 3), (38416, 4), (784, 5)] ∧
      IsBruteForceRanking (constantImages [9, 3, 0, 3, 7, 1]) (constantImages [0])
        ((0 : Nat) : Int) 6 (std_sort distances) ∧
      (std_sort distances).take 5 = [(0, 2), (784, 5), (7056, 1), (7056, 3), (38416, 4)] ∧
      tallyLoop [5, 4, 4, 6, 4, 6] (std_sort distances) 5 0 [] = some [(4, 3), (6, 2)] ∧
      classify id (constantImages [9, 3, 0, 3, 7, 1]) (constantImages [0]) [5, 4, 4, 6, 4, 6]
        ((6 : Nat) : Int) ((0 : Nat) : Int) = some 4 := by
  have hlen : 6 * 784 ≤ (constantImages [9, 3, 0, 3, 7, 1]).length := by
    rw [length_constantImages]; decide
  have hq : 0 * 784 + 784 ≤ (constantImages [0]).length := by
    rw [length_constantImages]; decide
  obtain ⟨distances, h₁, h₂, h₃⟩ := C5_k_selection_correct id
    (constantImages [9, 3, 0, 3, 7, 1]) (constantImages [0]) [5, 4, 4, 6, 4, 6] 6 0
    (by decide) hlen (by norm_num) hq (by norm_num)
  have hd := distancesLoop_eq (constantImages [9, 3, 0, 3, 7, 1]) (constantImages [0]) 0 hq
    (by norm_num) 6 0 [] (by omega) (by norm_num)
  simp only [List.nil_append, Nat.cast_zero] at hd
  have hp := distancePairs_constantImages [9, 3, 0, 3, 7, 1] [0] 0 (by decide)
  have hexp : distances = [(63504, 0), (7056, 1), (0, 2), (7056, 3), (38416, 4), (784, 5)] := by
    have e : some distances = some (distancePairs (constantImages [9, 3, 0, 3, 7, 1])
        (constantImages [0]) 0 0 6) := h₁.symm.trans hd
    rw [Option.some.injEq] at e
    rw [e]
    exact hp.trans (by decide)
  obtain ⟨_, _, _, h₄, h₅⟩ := h₃ (std_sort distances) h₂
  refine ⟨by decide, hlen, hq, distances, h₁, hexp, h₂, ?_, ?_, ?_⟩
  · rw [hexp]; decide
  · rw [h₄, hexp]; decide
  · rw [h₅, hexp]; decide

/-- C5, counterexample to the claim as stated: a reference set of 2739139
all-zero images (2147484976 bytes) and query index 0. Reference index 2739138
is in range but its offset 2147484192 is not an `int`: its distance is
undefined, so the scan has no result, there are no pairs to vote over, and no
full ranking of the reference images by `pairwise_distance` exists. -/
theorem C5_counterexample :
    5 ≤ 2739139 ∧
    2739139 * 784 ≤ (List.replicate 2147484976 (0 : Byte)).length ∧
    0 * 784 + 784 ≤ (constantImage 0).length ∧
    pairwise_distance (List.replicate 2147484976 0) (constantImage 0) 2739138 0 = none ∧
    distancesLoop (List.replicate 2147484976 0) (constantImage 0) 0 2739139 0 [] = none ∧
    (∀ ranking : List (Int × Int),
      ¬ IsBruteForceRanking (List.replicate 2147484976 0) (constantImage 0) 0 2739139
        ranking) := by
  have hpd : pairwise_distance (List.replicate 2147484976 0) (constantImage 0)
      ((2739138 : Nat) : Int) 0 = none :=
    pairwise_distance_overflow _ _ 2739138 0 (by norm_num)
  have hloop := distancesLoop_none (List.replicate 2147484976 0) (constantImage 0) 0 2739138
    hpd 2739139 0 [] (by norm_num) (by norm_num)
  refine ⟨by norm_num, le_length_replicate _ (by norm_num),
    by rw [length_constantImage], hpd, hloop, ?_⟩
  intro ranking hr
  obtain ⟨hperm, hdist, _⟩ := hr
  have hmem : ((2739138 : Nat) : Int) ∈ (List.range 2739139).map Int.ofNat :=
    List.mem_map.mpr ⟨2739138, List.mem_range.mpr (by norm_num), rfl⟩
  obtain ⟨entry, he, hsnd⟩ := List.mem_map.mp (hperm.symm.subset hmem)
  have := hdist entry he
  rw [hsnd, hpd] at this
  cases this

/-! ## Vote: the specification's properties -/

theorem voteLoop_of_le (its : List (Byte × Int)) :
    ∀ (pl : Byte) (mc : Int), (∀ x ∈ its, x.2 ≤ mc) → voteLoop its pl mc = (pl, mc) := by
  induction its with
  | nil => intro pl mc _; rfl
  | cons a rest ih =>
    intro pl mc h
    have ha : ¬ a.2 > mc := by
      have := h a (List.mem_cons_self _ _)
      omega
    simp only [voteLoop, ha, if_false]
    exact ih pl mc fun x hx => h x (List.mem_cons_of_mem _ hx)

/-- The vote loop stops on the first entry, in iteration order, whose count is
maximal: every earlier entry has a smaller count, no later entry a larger one. -/
theorem voteLoop_first_max (its : List (Byte × Int)) :
    ∀ (pl : Byte) (mc : Int), (∃ x ∈ its, mc < x.2) →
      ∃ (pre : List (Byte × Int)) (e : Byte × Int) (post : List (Byte × Int)),
        its = pre ++ e :: post ∧ voteLoop its pl mc = (e.1, e.2) ∧ mc < e.2 ∧
        (∀ x ∈ pre, x.2 < e.2) ∧ (∀ x ∈ post, x.2 ≤ e.2) := by
  induction its with
  | nil => intro pl mc h; obtain ⟨x, hx, _⟩ := h; cases hx
  | cons a rest ih =>
    intro pl mc h
    by_cases ha : a.2 > mc
    · by_cases hrest : ∃ x ∈ rest, a.2 < x.2
      · obtain ⟨pre, e, post, h₁, h₂, h₃, h₄, h₅⟩ := ih a.1 a.2 hrest
        refine ⟨a :: pre, e, post, by rw [h₁]; rfl, ?_, by omega, ?_, h₅⟩
        · simp only [voteLoop, ha, if_true]; exact h₂
        · intro x hx
          rcases List.mem_cons.mp hx with hxa | hxp
          · rw [hxa]; exact h₃
          · exact h₄ x hxp
      · have hle : ∀ x ∈ rest, x.2 ≤ a.2 := by
          intro x hx
          by_contra hcon
          exact hrest ⟨x, hx, by omega⟩
        refine ⟨[], a, rest, rfl, ?_, by omega, fun x hx => (by cases hx), hle⟩
        simp only [voteLoop, ha, if_true]
        exact voteLoop_of_le rest a.1 a.2 hle
    · have hrest : ∃ x ∈ rest, mc < x.2 := by
        obtain ⟨x, hx, hlt⟩ := h
        rcases List.mem_cons.mp hx with hxa | hxr
        · rw [hxa] at hlt; omega
        · exact ⟨x, hxr, hlt⟩
      obtain ⟨pre, e, post, h₁, h₂, h₃, h₄, h₅⟩ := ih pl mc hrest
      refine ⟨a :: pre, e, post, by rw [h₁]; rfl, ?_, h₃, ?_, h₅⟩
      · simp only [voteLoop, ha, if_false]; exact h₂
      · intro x hx
        rcases List.mem_cons.mp hx with hxa | hxp
        · rw [hxa]; omega
        · exact h₄ x hxp

/-- The tally loop completes with the tally of the labels it is to look up when
each of these reads is in range. -/
theorem tallyLoop_of_reads (train_labels : List Byte) (ds : List (Int × Int)) :
    ∀ (n i : Nat) (m : List (Byte × Int)) (labels : List Byte), labels.length = n →
      (∀ k : Nat, k < n → ∃ pair : Int × Int,
        pairAt ds ((i + k : Nat) : Int) = some pair ∧
        readAt train_labels pair.2 = labels.get? k) →
      tallyLoop train_labels ds n (i : Int) m = some (labels.foldl increment m) := by
  intro n
  induction n with
  | zero =>
    intro i m labels hlen _
    have : labels = [] := List.length_eq_zero.mp hlen
    subst this
    rfl
  | succ n ih =>
    intro i m labels hlen hread
    match labels, hlen with
    | label :: rest, hlen =>
      obtain ⟨pair, hp, hl⟩ := hread 0 (by omega)
      have hp' : pairAt ds (i : Int) = some pair := by simpa using hp
      have hl' : readAt train_labels pair.2 = some label := by simpa using hl
      have ei : ((i : Int) + 1) = ((i + 1 : Nat) : Int) := by push_cast; rfl
      rw [tallyLoop, hp', Option.some_bind, hl', Option.some_bind, ei]
      refine ih (i + 1) _ rest (by simpa using hlen) fun k hk => ?_
      obtain ⟨pair', h₁, h₂⟩ := hread (k + 1) (by omega)
      refine ⟨pair', ?_, by simpa using h₂⟩
      have e : i + 1 + k = i + (k + 1) := by omega
      rw [e]
      exact h₁

/-- The prediction for a query whose 5 neighbour labels are `labels`. -/
theorem classify_of_neighbourLabels (order : List (Byte × Int) → List (Byte × Int))
    {train_data test_data train_labels : List Byte} {num_train_images test_index : Int}
    {labels : List Byte}
    (h : AreNeighbourLabels train_data test_data train_labels num_train_images test_index
      labels) :
    classify order train_data test_data train_labels num_train_images test_index =
      some (vote (order (countLabels labels))) := by
  obtain ⟨scanned, hd, hlen, hread⟩ := h
  have ht := tallyLoop_of_reads train_labels (std_sort scanned) 5 0 [] labels hlen
    (fun k hk => by simpa using hread k hk)
  simp only [Nat.cast_zero] at ht
  simp only [classify]
  rw [hd, Option.some_bind, ht, Option.some_bind]
  rfl

/-- Neighbour labels from a completed scan: the labels found for the first 5
pairs of the sorted scan. -/
theorem areNeighbourLabels_of_scan {train_data test_data train_labels : List Byte}
    {num_train_images test_index : Int} {scanned : List (Int × Int)} {labels : List Byte}
    (hd : distancesLoop train_data test_data test_index num_train_images.toNat 0 [] =
      some scanned)
    (hlen : labels.length = 5)
    (hmap : ((std_sort scanned).take 5).map (fun pair => readAt train_labels pair.2) =
      labels.map some) :
    AreNeighbourLabels train_data test_data train_labels num_train_images test_index labels := by
  refine ⟨scanned, hd, hlen, fun i hi => ?_⟩
  have hl : ((std_sort scanned).take 5).length = 5 := by
    have := congrArg List.length hmap
    simpa [hlen] using this
  have hi₁ : i < ((std_sort scanned).take 5).length := by omega
  have hi₂ : i < (std_sort scanned).length := by
    rw [List.length_take] at hl
    omega
  refine ⟨(std_sort scanned).get ⟨i, hi₂⟩, ?_, ?_⟩
  · rw [pairAt_natCast, List.get?_eq_get hi₂]
  · have h := congrArg (fun l => l.get? i) hmap
    simp only [List.get?_eq_getElem?, List.getElem?_map, List.getElem?_take, hi, if_true,
      List.getElem?_eq_getElem hi₂, Option.map_some'] at h
    rw [List.get?_eq_getElem?, List.get_eq_getElem]
    rcases hget : labels[i]? with _ | label
    · rw [hget] at h; simp at h
    · rw [hget] at h
      simpa using h

/-- The neighbour labels of a constant query image among constant reference
images, read off the values of the images. -/
theorem areNeighbourLabels_constantImages (values queries train_labels labels : List Byte)
    (q : Nat) (hN : values.length ≤ 1000) (hq : q < queries.length)
    (hQ : queries.length ≤ 1000) (hlen : labels.length = 5)
    (hmap : ((std_sort ((List.range values.length).map fun i =>
        (784 * (((values.getD i 0).val : Int) - ((queries.getD q 0).val : Int)) ^ 2,
          (i : Int)))).take 5).map (fun pair => readAt train_labels pair.2) =
      labels.map some) :
    AreNeighbourLabels (constantImages values) (constantImages queries) train_labels
      (values.length : Int) (q : Int) labels := by
  have hd := distancesLoop_eq (constantImages values) (constantImages queries) q
    (by rw [length_constantImages]; omega) (by omega) values.length 0 []
    (by rw [length_constantImages]; omega) (by omega)
  simp only [List.nil_append, Nat.cast_zero] at hd
  rw [distancePairs_constantImages values queries q hq] at hd
  exact areNeighbourLabels_of_scan (by simpa using hd) hlen hmap

theorem count_add_count_le (L : List Byte) (a b : Byte) (h : a ≠ b) :
    L.count a + L.count b ≤ L.length := by
  induction L with
  | nil => simp
  | cons x rest ih =>
    rw [List.count_cons, List.count_cons, List.length_cons]
    by_cases hxa : x = a
    · have hxb : ¬ x = b := fun e => h (hxa.symm.trans e)
      simp only [hxa, beq_self_eq_true, if_true]
      have : (a == b) = false := by simpa using h
      simp only [this]
      simp only [Bool.false_eq_true, if_false]
      omega
    · have : (x == a) = false := by simpa using hxa
      simp only [this, Bool.false_eq_true, if_false]
      split <;> omega

/-- C6: majority vote. For every query whose `k = 5` neighbour labels
(`train_labels[distances[i].second]`, `i < 5`) form the sequence `labels`, and
every order in which the tally is iterated, the program's prediction is
defined; it is the vote over the tally of `labels`, it is one of these labels,
and no label occurs more often among them. -/
theorem C6_majority_vote (order : List (Byte × Int) → List (Byte × Int))
    (horder : ∀ m, (order m).Perm m)
    (train_data test_data train_labels : List Byte) (num_train_images test_index : Int)
    (labels : List Byte)
    (hl : AreNeighbourLabels train_data test_data train_labels num_train_images test_index
      labels) :
    ∃ predicted : Byte,
      classify order train_data test_data train_labels num_train_images test_index =
        some predicted ∧
      predicted = (voteLoop (order (labels.foldl increment [])) 0 0).1 ∧
      predicted ∈ labels ∧ ∀ l : Byte, labels.count l ≤ labels.count predicted := by
  have hne : labels ≠ [] := by
    obtain ⟨_, _, hlen, _⟩ := hl
    intro e
    rw [e] at hlen
    cases hlen
  have hv := vote_spec labels hne (order (countLabels labels)) (horder _)
  exact ⟨_, classify_of_neighbourLabels order hl, rfl, hv.1, hv.2⟩

/-- C6, witness: six constant reference images of values 9, 3, 0, 3, 7, 1 with
labels 5, 4, 4, 6, 4, 6 and the all-zero query image; the neighbour labels are
those of the images 2, 5, 1, 3, 4, and the tally is iterated in reverse. -/
theorem C6_witness :
    AreNeighbourLabels (constantImages [9, 3, 0, 3, 7, 1]) (constantImages [0])
      [5, 4, 4, 6, 4, 6] 6 0 [4, 6, 4, 6, 4] ∧
    classify List.reverse (constantImages [9, 3, 0, 3, 7, 1]) (constantImages [0])
      [5, 4, 4, 6, 4, 6] 6 0 = some 4 ∧
    (4 : Byte) ∈ ([4, 6, 4, 6, 4] : List Byte) ∧
    ∀ l : Byte, ([4, 6, 4, 6, 4] : List Byte).count l ≤ ([4, 6, 4, 6, 4] : List Byte).count 4 := by
  have hl : AreNeighbourLabels (constantImages [9, 3, 0, 3, 7, 1]) (constantImages [0])
      [5, 4, 4, 6, 4, 6] 6 0 [4, 6, 4, 6, 4] :=
    areNeighbourLabels_constantImages [9, 3, 0, 3, 7, 1] [0] [5, 4, 4, 6, 4, 6] [4, 6, 4, 6, 4] 0
      (by decide) (by decide) (by decide) rfl (by decide)
  obtain ⟨predicted, h₁, h₂, h₃, h₄⟩ := C6_majority_vote List.reverse
    (fun m => List.reverse_perm m) _ _ _ _ _ _ hl
  have hp : predicted = 4 := by rw [h₂]; decide
  rw [hp] at h₁ h₃ h₄
  exact ⟨hl, h₁, h₃, h₄⟩

/-- C7 (as amended): what determines the vote. For a query whose 5 neighbour
labels form the sequence `labels₁`, the prediction is the label of the first
entry of maximal count in the order in which the tally of `labels₁` is
iterated: every entry iterated before it has a smaller count and no entry after
it a larger one. Hence, for two queries whose neighbour-label sequences are
permutations of each other and in which one label `winner` occurs strictly more
often than every other, both predictions are `winner`, whatever the two
iteration orders. -/
theorem C7_vote_is_first_maximum (order₁ order₂ : List (Byte × Int) → List (Byte × Int))
    (horder₁ : ∀ m, (order₁ m).Perm m) (horder₂ : ∀ m, (order₂ m).Perm m)
    (train_data₁ test_data₁ train_labels₁ : List Byte) (N₁ q₁ : Int)
    (train_data₂ test_data₂ train_labels₂ : List Byte) (N₂ q₂ : Int)
    (labels₁ labels₂ : List Byte)
    (hl₁ : AreNeighbourLabels train_data₁ test_data₁ train_labels₁ N₁ q₁ labels₁)
    (hl₂ : AreNeighbourLabels train_data₂ test_data₂ train_labels₂ N₂ q₂ labels₂) :
    ∃ p₁ p₂ : Byte,
      classify order₁ train_data₁ test_data₁ train_labels₁ N₁ q₁ = some p₁ ∧
      classify order₂ train_data₂ test_data₂ train_labels₂ N₂ q₂ = some p₂ ∧
      (∃ (pre : List (Byte × Int)) (e : Byte × Int) (post : List (Byte × Int)),
        order₁ (labels₁.foldl increment []) = pre ++ e :: post ∧
        p₁ = e.1 ∧ e.2 = (labels₁.count p₁ : Int) ∧
        (∀ x ∈ pre, x.2 < e.2) ∧ (∀ x ∈ post, x.2 ≤ e.2)) ∧
      (labels₁.Perm labels₂ → ∀ winner : Byte,
        (∀ l : Byte, l ≠ winner → labels₁.count l < labels₁.count winner) →
        p₁ = winner ∧ p₂ = winner) := by
  have hne₁ : labels₁ ≠ [] := by
    obtain ⟨_, _, hlen, _⟩ := hl₁
    intro e
    rw [e] at hlen
    cases hlen
  have hne₂ : labels₂ ≠ [] := by
    obtain ⟨_, _, hlen, _⟩ := hl₂
    intro e
    rw [e] at hlen
    cases hlen
  have hv₁ := vote_spec labels₁ hne₁ (order₁ (countLabels labels₁)) (horder₁ _)
  have hv₂ := vote_spec labels₂ hne₂ (order₂ (countLabels labels₂)) (horder₂ _)
  refine ⟨_, _, classify_of_neighbourLabels order₁ hl₁, classify_of_neighbourLabels order₂ hl₂,
    ?_, ?_⟩
  · obtain ⟨_, hkeys, hcount⟩ := isTallyOf_countLabels labels₁
    obtain ⟨l₀, hl₀⟩ := List.exists_mem_of_ne_nil labels₁ hne₁
    obtain ⟨e₀, he₀, hk₀⟩ := List.mem_map.mp ((hkeys l₀).mpr hl₀)
    have hpos : (0 : Int) < e₀.2 := by
      rw [hcount e₀ he₀, hk₀]
      exact_mod_cast List.count_pos_iff.mpr hl₀
    obtain ⟨pre, e, post, h₁, h₂, _, h₄, h₅⟩ := voteLoop_first_max
      (order₁ (countLabels labels₁)) 0 0 ⟨e₀, (horder₁ _).symm.subset he₀, hpos⟩
    have hmem : e ∈ countLabels labels₁ :=
      (horder₁ _).subset (by rw [h₁]; exact List.mem_append_right _ (List.mem_cons_self _ _))
    have hp : vote (order₁ (countLabels labels₁)) = e.1 := by
      simp only [vote, h₂]
    refine ⟨pre, e, post, h₁, hp, ?_, h₄, h₅⟩
    rw [hcount e hmem, hp]
  · intro hperm winner hmax
    constructor
    · by_contra hv
      have := hv₁.2 winner
      have := hmax _ hv
      omega
    · by_contra hv
      have := hv₂.2 winner
      have := hmax _ hv
      rw [hperm.count_eq, hperm.count_eq] at this
      omega

/-- C7, witness: two queries with the neighbour labels `[4, 6, 4, 6, 4]` and
`[6, 6, 4, 4, 4]`, the first tally iterated in insertion order and the second in
reverse: label 4 occurs three times and is predicted for both. -/
theorem C7_witness :
    AreNeighbourLabels (constantImages [9, 3, 0, 3, 7, 1]) (constantImages [0])
      [5, 4, 4, 6, 4, 6] 6 0 [4, 6, 4, 6, 4] ∧
    AreNeighbourLabels (constantImages [0, 1, 3, 3, 7, 9]) (constantImages [0])
      [6, 6, 4, 4, 4, 5] 6 0 [6, 6, 4, 4, 4] ∧
    List.Perm ([4, 6, 4, 6, 4] : List Byte) [6, 6, 4, 4, 4] ∧
    classify id (constantImages [9, 3, 0, 3, 7, 1]) (constantImages [0])
      [5, 4, 4, 6, 4, 6] 6 0 = some 4 ∧
    classify List.reverse (constantImages [0, 1, 3, 3, 7, 9]) (constantImages [0])
      [6, 6, 4, 4, 4, 5] 6 0 = some 4 := by
  have hl₁ : AreNeighbourLabels (constantImages [9, 3, 0, 3, 7, 1]) (constantImages [0])
      [5, 4, 4, 6, 4, 6] 6 0 [4, 6, 4, 6, 4] :=
    areNeighbourLabels_constantImages [9, 3, 0, 3, 7, 1] [0] [5, 4, 4, 6, 4, 6] [4, 6, 4, 6, 4] 0
      (by decide) (by decide) (by decide) rfl (by decide)
  have hl₂ : AreNeighbourLabels (constantImages [0, 1, 3, 3, 7, 9]) (constantImages [0])
      [6, 6, 4, 4, 4, 5] 6 0 [6, 6, 4, 4, 4] :=
    areNeighbourLabels_constantImages [0, 1, 3, 3, 7, 9] [0] [6, 6, 4, 4, 4, 5] [6, 6, 4, 4, 4] 0
      (by decide) (by decide) (by decide) rfl (by decide)
  have hperm : List.Perm ([4, 6, 4, 6, 4] : List Byte) [6, 6, 4, 4, 4] := by decide
  have hmax : ∀ l : Byte, l ≠ 4 → ([4, 6, 4, 6, 4] : List Byte).count l <
      ([4, 6, 4, 6, 4] : List Byte).count 4 := by
    intro l hl
    have h := count_add_count_le [4, 6, 4, 6, 4] l 4 hl
    have h4 : ([4, 6, 4, 6, 4] : List Byte).count 4 = 3 := by decide
    have h5 : ([4, 6, 4, 6, 4] : List Byte).length = 5 := rfl
    omega
  obtain ⟨p₁, p₂, h₁, h₂, _, h₄⟩ := C7_vote_is_first_maximum id List.reverse
    (fun m => List.Perm.refl m) (fun m => List.reverse_perm m) _ _ _ _ _ _ _ _ _ _ _ _ hl₁ hl₂
  obtain ⟨e₁, e₂⟩ := h₄ hperm 4 hmax
  rw [e₁] at h₁
  rw [e₂] at h₂
  exact ⟨hl₁, hl₂, hperm, h₁, h₂⟩

/-- C7, counterexample to the claim as stated: five all-zero reference images and
the all-zero query image, so that the neighbour labels are the five reference
labels in order. Labels 1 and 2 tie with two votes each. With the tally
iterated in reverse order of insertion, the label sequences `[1, 1, 2, 2, 3]` and
`[2, 2, 1, 1, 3]`, permutations of each other, are predicted 2 and 1; and the
sequence `[1, 1, 2, 2, 3]` itself is predicted 1 when its tally is iterated in
insertion order. -/
theorem C7_counterexample :
    AreNeighbourLabels (constantImages [0, 0, 0, 0, 0]) (constantImages [0])
      [1, 1, 2, 2, 3] 5 0 [1, 1, 2, 2, 3] ∧
    AreNeighbourLabels (constantImages [0, 0, 0, 0, 0]) (constantImages [0])
      [2, 2, 1, 1, 3] 5 0 [2, 2, 1, 1, 3] ∧
    List.Perm ([1, 1, 2, 2, 3] : List Byte) [2, 2, 1, 1, 3] ∧
    classify List.reverse (constantImages [0, 0, 0, 0, 0]) (constantImages [0])
      [1, 1, 2, 2, 3] 5 0 = some 2 ∧
    classify List.reverse (constantImages [0, 0, 0, 0, 0]) (constantImages [0])
      [2, 2, 1, 1, 3] 5 0 = some 1 ∧
    classify id (constantImages [0, 0, 0, 0, 0]) (constantImages [0])
      [1, 1, 2, 2, 3] 5 0 = some 1 := by
  refine ⟨?_, ?_, by decide, ?_, ?_, ?_⟩
  · exact areNeighbourLabels_constantImages [0, 0, 0, 0, 0] [0] [1, 1, 2, 2, 3] [1, 1, 2, 2, 3] 0
      (by decide) (by decide) (by decide) rfl (by decide)
  · exact areNeighbourLabels_constantImages [0, 0, 0, 0, 0] [0] [2, 2, 1, 1, 3] [2, 2, 1, 1, 3] 0
      (by decide) (by decide) (by decide) rfl (by decide)
  · exact (classify_constantImages List.reverse [0, 0, 0, 0, 0] [0] [1, 1, 2, 2, 3] 0
      (by decide) (by decide) (by decide) (by decide)).trans (by decide)
  · exact (classify_constantImages List.reverse [0, 0, 0, 0, 0] [0] [2, 2, 1, 1, 3] 0
      (by decide) (by decide) (by decide) (by decide)).trans (by decide)
  · exact (classify_constantImages id [0, 0, 0, 0, 0] [0] [1, 1, 2, 2, 3] 0
      (by decide) (by decide) (by decide) (by decide)).trans (by decide)

/-! ## Accuracy: the specification's property -/

theorem readIDXFile_imageFile (values : List Byte) (h : values.length < 2147483648) :
    readIDXFile (some (imageFile values)) =
      .ok (constantImages values, [(values.length : Int), 28, 28]) :=
  readIDXFile_three_dimensions 0 0 8 values.length 28 28 h (by norm_num) (by norm_num)
    (constantImages values)

theorem isCorrect_eq {order : List (Byte × Int) → List (Byte × Int)}
    {train_data test_data train_labels test_labels : List Byte} {num_train_images : Int}
    {i : Nat} {predicted truth : Byte}
    (hc : classify order train_data test_data train_labels num_train_images (i : Int) =
      some predicted)
    (hr : readAt test_labels (i : Int) = some truth) :
    isCorrect order train_data test_data train_labels test_labels num_train_images i =
      decide (predicted = truth) := by
  simp only [isCorrect, hc, hr]

/-- C14: accuracy arithmetic, over exact rationals. For a run of `main` that
completes on a non-empty query set of `T` images, the last line of output is
`Classification Accuracy: <v>%` where `<v>` is the rendering of the value
`100 * C / T`, `C` being the number of query indices whose predicted label
equals the ground-truth label; with `T = 10` and `C = 7` the value rendered is
70. -/
theorem C14_accuracy_arithmetic (order : List (Byte × Int) → List (Byte × Int))
    (showDouble : Option Rat → String)
    (train_images test_images train_label_file test_label_file : Option (List Byte))
    (train_data test_data train_labels test_labels : List Byte)
    (train_dimensions test_dimensions : List Int) (Ntrain : Int) (T : Nat) (out : Outcome)
    (h₁ : readIDXFile train_images = .ok (train_data, train_dimensions))
    (h₂ : readIDXFile test_images = .ok (test_data, test_dimensions))
    (h₃ : readLabelFile train_label_file = .ok train_labels)
    (h₄ : readLabelFile test_label_file = .ok test_labels)
    (hN : train_dimensions.get? 0 = some Ntrain)
    (hT : test_dimensions.get? 0 = some (T : Int)) (hpos : 0 < T)
    (hrun : main order showDouble train_images test_images train_label_file test_label_file =
      some out) :
    out.stdout.length = T + 1 ∧
    out.stdout.get? T = some ("Classification Accuracy: " ++ showDouble (some
      (100 * (((List.range T).countP (isCorrect order train_data test_data train_labels
        test_labels Ntrain) : Nat) : Rat) / (T : Rat))) ++ "%") ∧
    (T = 10 → (List.range T).countP (isCorrect order train_data test_data train_labels
        test_labels Ntrain) = 7 →
      out.stdout.get? T = some ("Classification Accuracy: " ++ showDouble (some 70) ++ "%")) := by
  obtain ⟨_, _, hlen, _, hlast⟩ := main_spec order showDouble h₁ h₂ h₃ h₄ hN hT hrun
  simp only [Int.toNat_ofNat] at hlast hlen
  have hne : ((T : Nat) : Int) ≠ 0 := by exact_mod_cast (by omega : T ≠ 0)
  have hval : accuracyPercent (((List.range T).countP (isCorrect order train_data test_data
      train_labels test_labels Ntrain) : Nat) : Int) (T : Int) = some
      (100 * (((List.range T).countP (isCorrect order train_data test_data train_labels
        test_labels Ntrain) : Nat) : Rat) / (T : Rat)) := by
    simp only [accuracyPercent, hne, if_false]
    congr 1
    push_cast
    ring
  rw [hval] at hlast
  refine ⟨hlen, hlast, fun hT10 hC => ?_⟩
  rw [hlast, hC, hT10]
  norm_num [accuracyLine]

/-- C14, witness: six constant reference images of values 9, 3, 0, 3, 7, 1 with
labels 5, 4, 4, 6, 4, 4 and two query images of values 0 and 7 with the ground
truth 4 and 7. Both are predicted 4, so one of two predictions is correct and
the value rendered is 50. -/
theorem C14_witness :
    (0 : Nat) < 2 ∧
    (List.range 2).countP (isCorrect id (constantImages [9, 3, 0, 3, 7, 1])
      (constantImages [0, 7]) [5, 4, 4, 6, 4, 4] [4, 7] 6) = 1 ∧
    ∃ out, main id showExact (some (imageFile [9, 3, 0, 3, 7, 1])) (some (imageFile [0, 7]))
        (some (labelFile [5, 4, 4, 6, 4, 4])) (some (labelFile [4, 7])) = some out ∧
      out.stdout.get? 2 =
        some ("Classification Accuracy: " ++ showExact (some 50) ++ "%") := by
  have h₁ := readIDXFile_imageFile [9, 3, 0, 3, 7, 1] (by decide)
  have h₂ := readIDXFile_imageFile [0, 7] (by decide)
  have h₃ : readLabelFile (some (labelFile [5, 4, 4, 6, 4, 4])) = .ok [5, 4, 4, 6, 4, 4] :=
    readLabelFile_labelFile _ (by decide) (by decide)
  have h₄ : readLabelFile (some (labelFile [4, 7])) = .ok [4, 7] :=
    readLabelFile_labelFile _ (by decide) (by decide)
  have hN : [(([9, 3, 0, 3, 7, 1] : List Byte).length : Int), 28, 28].get? 0 =
      some ((6 : Nat) : Int) := rfl
  have hT : [(([0, 7] : List Byte).length : Int), 28, 28].get? 0 = some ((2 : Nat) : Int) := rfl
  obtain ⟨out, hout⟩ := main_total id showExact h₁ h₂ h₃ h₄ hN hT (by decide)
    (by rw [length_constantImages]; decide) (by norm_num) (by decide)
    (by rw [length_constantImages]; decide) (by norm_num) (by decide)
  have hc₀ : classify id (constantImages [9, 3, 0, 3, 7, 1]) (constantImages [0, 7])
      [5, 4, 4, 6, 4, 4] 6 ((0 : Nat) : Int) = some 4 :=
    (classify_constantImages id [9, 3, 0, 3, 7, 1] [0, 7] [5, 4, 4, 6, 4, 4] 0
      (by decide) (by decide) (by decide) (by decide)).trans (by decide)
  have hc₁ : classify id (constantImages [9, 3, 0, 3, 7, 1]) (constantImages [0, 7])
      [5, 4, 4, 6, 4, 4] 6 ((1 : Nat) : Int) = some 4 :=
    (classify_constantImages id [9, 3, 0, 3, 7, 1] [0, 7] [5, 4, 4, 6, 4, 4] 1
      (by decide) (by decide) (by decide) (by decide)).trans (by decide)
  have hcount : (List.range 2).countP (isCorrect id (constantImages [9, 3, 0, 3, 7, 1])
      (constantImages [0, 7]) [5, 4, 4, 6, 4, 4] [4, 7] 6) = 1 := by
    have r₀ : readAt [4, 7] ((0 : Nat) : Int) = some 4 := by decide
    have r₁ : readAt [4, 7] ((1 : Nat) : Int) = some 7 := by decide
    have e₀ : isCorrect id (constantImages [9, 3, 0, 3, 7, 1]) (constantImages [0, 7])
        [5, 4, 4, 6, 4, 4] [4, 7] 6 0 = true := (isCorrect_eq hc₀ r₀).trans (by decide)
    have e₁ : isCorrect id (constantImages [9, 3, 0, 3, 7, 1]) (constantImages [0, 7])
        [5, 4, 4, 6, 4, 4] [4, 7] 6 1 = false := (isCorrect_eq hc₁ r₁).trans (by decide)
    have hr : List.range 2 = [0, 1] := rfl
    rw [hr, List.countP_cons, List.countP_cons, List.countP_nil, e₀, e₁]
    rfl
  obtain ⟨_, hline, _⟩ := C14_accuracy_arithmetic id showExact _ _ _ _ _ _ _ _ _ _
    ((6 : Nat) : Int) 2 out h₁ h₂ h₃ h₄ hN hT (by decide) hout
  have hcount' : (List.range 2).countP (isCorrect id (constantImages [9, 3, 0, 3, 7, 1])
      (constantImages [0, 7]) [5, 4, 4, 6, 4, 4] [4, 7] ((6 : Nat) : Int)) = 1 := hcount
  rw [hcount'] at hline
  have hv : (100 * ((1 : Nat) : Rat) / ((2 : Nat) : Rat)) = 50 := by norm_num
  rw [hv] at hline
  exact ⟨by decide, hcount, out, hout, hline⟩

end NumberDetection
